import Mathlib

/-!
# Verification of the vishpro-extension action orchestrator

A shallow embedding, in Lean 4, of the JavaScript modules of the
`vishpro-extension` repository that the specification claims talk about:

* `src/modules/executor.js` — parameter validation, action execution, the
  multi-turn tool-calling loop, browser-state insertion, tool compilation,
  stop-result unwrapping;
* the second executor variant bundled in `src/modules/time-bucket-counter.js`
  (the variant whose multi-turn loop executes all tool calls of one
  assistant message serially);
* `src/modules/llm.js` and `src/unnamed/part_011` with
  `src/modules/llm/models.js` — the cascading model client and its
  skip/back-off bookkeeping;
* `src/modules/time-bucket-counter.js` — the time-bucketed counter;
* `src/modules/orchestrator/templates.js` — the template renderer.

JavaScript values that flow through these functions are modelled by the
`JVal` type below (JSON values plus `undefined`); machine numbers are
modelled by `Int` (the code only ever adds, compares and floors integral
millisecond timestamps and counts).  Exceptions are modelled by `Except`,
and the external collaborators (the model API, the browser, sub-action
bodies) by explicit oracles passed as arguments.
-/

/-- A JavaScript runtime value as used by the orchestrator: JSON values
plus `undefined`.  Object fields keep insertion order, like JS objects. -/
inductive JVal : Type where
  | jundefined
  | jnull
  | jbool (b : Bool)
  | jnum (n : Int)
  | jstr (s : String)
  | jarr (elems : List JVal)
  | jobj (fields : List (String × JVal))
  deriving Repr

namespace JVal

/-- JavaScript truthiness of a value (`if (v)` / `v ? _ : _` / `a || b`). -/
def truthy : JVal → Bool
  | .jundefined => false
  | .jnull => false
  | .jbool b => b
  | .jnum n => n != 0
  | .jstr s => s ≠ ""
  | .jarr _ => true
  | .jobj _ => true

/-- JavaScript optional-chained member access `v?.k`: `undefined` on
`null`/`undefined` receivers and on primitives without the property; the
first field with the given name on objects (JS objects cannot have
duplicate keys; first-match keeps the model total). -/
def getField (v : JVal) (k : String) : JVal :=
  match v with
  | .jobj fields =>
      match fields.find? (fun f => f.1 = k) with
      | some f => f.2
      | none => .jundefined
  | _ => .jundefined

/-- `typeof v === 'string'`. -/
def isString : JVal → Bool
  | .jstr _ => true
  | _ => false

end JVal

/-- The two-character hex suffix of a `\u00XX` escape. -/
def hexByte (n : Nat) : String :=
  let digit (d : Nat) : Char := if d < 10 then Char.ofNat (48 + d) else Char.ofNat (87 + d)
  String.mk [digit (n / 16 % 16), digit (n % 16)]

/-- JSON string escaping as performed by `JSON.stringify` (the `QuoteJSONString`
algorithm restricted to well-formed scalar text). -/
def jsonQuote (s : String) : String :=
  let esc (c : Char) : String :=
    if c = '"' then "\\\""
    else if c = '\\' then "\\\\"
    else if c = '\n' then "\\n"
    else if c = '\r' then "\\r"
    else if c = '\t' then "\\t"
    else if c.toNat = 8 then "\\b"
    else if c.toNat = 12 then "\\f"
    else if c.toNat < 32 then "\\u00" ++ hexByte c.toNat
    else String.mk [c]
  "\"" ++ String.join (s.data.map esc) ++ "\""

/-- `n` space characters (the accumulated indent of `JSON.stringify`). -/
def spaces (n : Nat) : String := String.mk (List.replicate n ' ')

mutual

/-- `JSON.stringify(v, null, gap)` at current indent `ind` (`gap = 0` is the
compact two-argument form).  Returns `none` exactly when `JSON.stringify`
returns `undefined` (top-level `undefined`). -/
def jsonStr (gap ind : Nat) : JVal → Option String
  | .jundefined => none
  | .jnull => some "null"
  | .jbool b => some (cond b "true" "false")
  | .jnum n => some (toString n)
  | .jstr s => some (jsonQuote s)
  | .jarr es =>
      let items := jsonStrArr gap (ind + gap) es
      if items.isEmpty then some "[]"
      else if gap = 0 then some ("[" ++ String.intercalate "," items ++ "]")
      else some ("[\n" ++ spaces (ind + gap) ++
        String.intercalate (",\n" ++ spaces (ind + gap)) items ++
        "\n" ++ spaces ind ++ "]")
  | .jobj fs =>
      let items := jsonStrObj gap (ind + gap) fs
      if items.isEmpty then some "\x7b\x7d"
      else if gap = 0 then some ("\x7b" ++ String.intercalate "," items ++ "\x7d")
      else some ("\x7b\n" ++ spaces (ind + gap) ++
        String.intercalate (",\n" ++ spaces (ind + gap)) items ++
        "\n" ++ spaces ind ++ "\x7d")

/-- Array elements: `undefined` entries serialize as `null`. -/
def jsonStrArr (gap ind : Nat) : List JVal → List String
  | [] => []
  | v :: vs => ((jsonStr gap ind v).getD "null") :: jsonStrArr gap ind vs

/-- Object members: `undefined`-valued properties are skipped. -/
def jsonStrObj (gap ind : Nat) : List (String × JVal) → List String
  | [] => []
  | (k, v) :: fs =>
      match jsonStr gap ind v with
      | none => jsonStrObj gap ind fs
      | some sv =>
          (jsonQuote k ++ (if gap = 0 then ":" else ": ") ++ sv) :: jsonStrObj gap ind fs

end

/-- Compact `JSON.stringify(v)`. -/
def jsonStringify (v : JVal) : Option String := jsonStr 0 0 v

/-- Pretty `JSON.stringify(v, null, 2)`. -/
def jsonStringify2 (v : JVal) : Option String := jsonStr 2 0 v

example : jsonStringify (.jobj [("a", .jnum 1), ("b", .jstr "x")]) =
    some "\x7b\"a\":1,\"b\":\"x\"\x7d" := by rfl

example : jsonStringify2 (.jobj [("a", .jnum 1)]) =
    some "\x7b\n  \"a\": 1\n\x7d" := by rfl

example : jsonStringify2 (.jobj [("a", .jobj [("b", .jarr [.jnum 1, .jundefined])])]) =
    some "\x7b\n  \"a\": \x7b\n    \"b\": [\n      1,\n      null\n    ]\n  \x7d\n\x7d" := by rfl

/-! ## Stop-result unwrapping (`src/modules/executor.js`, `unwrapStopResult`) -/

/-- `unwrapStopResult` from `src/modules/executor.js`:
`typeof result === 'string' ? result : result?.message || result?.response
|| JSON.stringify(result)` (the `||` chain keeps the first *truthy* value). -/
def unwrapStopResult (result : JVal) : JVal :=
  if result.isString then result
  else
    let m := result.getField "message"
    if m.truthy then m
    else
      let r := result.getField "response"
      if r.truthy then r
      else
        match jsonStringify result with
        | some s => .jstr s
        | none => .jundefined

/-- Does an object value carry a field of the given name? -/
def JVal.hasField (v : JVal) (k : String) : Bool :=
  match v with
  | .jobj fields => fields.any (fun f => f.1 = k)
  | _ => false

/-- The unwrapping rule exactly as the specification words it (claim C3):
the string itself, otherwise the `message` field, else the `response`
field, else the JSON serialization.  Used only to compare the spec text
against `unwrapStopResult`. -/
def unwrapStopResultClaim (result : JVal) : JVal :=
  if result.isString then result
  else if result.hasField "message" then result.getField "message"
  else if result.hasField "response" then result.getField "response"
  else
    match jsonStringify result with
    | some s => .jstr s
    | none => .jundefined

/-! ## Action declarations, registry and tool compilation
(`src/modules/executor.js`, `buildTools`) -/

/-- One property of a JSON-Schema-subset object schema. -/
structure PropSpec where
  type : String
  description : String := ""
  deriving Repr, DecidableEq

/-- The JSON-Schema subset used by actions: `properties` plus `required`
(`additionalProperties` is always `false` in the source and carries no
behaviour in the embedded functions). -/
structure Schema where
  properties : List (String × PropSpec)
  required : List String
  deriving Repr, DecidableEq

/-- An action declaration as read by the executor.  Step bodies are opaque
to the loop (they are executed through oracles), so only the fields the
embedded functions inspect are kept. -/
structure ActionDef where
  name : String
  description : Option String := none
  examples : List String := []
  input_schema : Option Schema := none
  deriving Repr, DecidableEq

/-- The read-only actions registry (`actionsRegistry[name]`). -/
def Registry := String → Option ActionDef

/-- JS object-literal merge `{...base, k1: v1, ...}` followed by a spread of
`ext`: keys of `base` keep their position with the later value winning;
fresh keys of `ext` are appended in order. -/
def objMerge (base ext : List (String × PropSpec)) : List (String × PropSpec) :=
  base.map (fun f => (f.1, ((ext.find? (fun g => g.1 = f.1)).map (·.2)).getD f.2)) ++
    ext.filter (fun g => ¬ base.any (fun f => f.1 = g.1))

/-- The parameter schema of a compiled tool. -/
structure ToolParams where
  properties : List (String × PropSpec)
  required : List String
  deriving Repr, DecidableEq

/-- A compiled tool in OpenRouter format:
`{type:'function', function:{name, description, parameters}}`. -/
structure Tool where
  name : String
  description : String
  parameters : ToolParams
  deriving Repr, DecidableEq

/-- JS `a.description || fallback` (empty string is falsy). -/
def descOr (d : Option String) (fallback : String) : String :=
  match d with
  | some s => if s = "" then fallback else s
  | none => fallback

/-- The two fields `buildTools` always injects. -/
def commonToolProps : List (String × PropSpec) :=
  [("justification", { type := "string", description := "Why this tool is appropriate" }),
   ("instructions", { type := "string", description := "Instructions for the tool" })]

/-- Compilation of one registered action to a tool (`buildTools` loop body,
`src/modules/executor.js` lines 290-316). -/
def buildTool (a : ActionDef) : Tool :=
  { name := a.name
    description := descOr a.description ("Execute " ++ a.name)
    parameters :=
      { properties := objMerge commonToolProps
          (match a.input_schema with | some s => s.properties | none => [])
        required := "justification" :: "instructions" ::
          (match a.input_schema with | some s => s.required | none => []) } }

/-- `buildTools` from `src/modules/executor.js`: map each available action
name through the registry, keep `null` for unknown names, then
`.filter(Boolean)`. -/
def buildTools (registry : Registry) (availableActions : List String) : List Tool :=
  (availableActions.map (fun name => (registry name).map buildTool)).reduceOption

/-! ## Theorems for C3 and C10 -/

/-- C3 (counterexample): the claim prescribes returning the `message` field
whenever `r` is not a string, but the code keeps `message` only when it is
*truthy*.  At `r = \x7bmessage: ""\x7d` the code returns the JSON
serialization of `r` while the claim prescribes the empty string. -/
theorem unwrapStopResult_message_empty_cex :
    unwrapStopResult (.jobj [("message", .jstr "")]) =
      .jstr "\x7b\"message\":\"\"\x7d" ∧
    unwrapStopResultClaim (.jobj [("message", .jstr "")]) = .jstr "" ∧
    ("\x7b\"message\":\"\"\x7d" : String) ≠ "" := by
  refine ⟨rfl, rfl, by decide⟩

/-- C3 (amended): `unwrapStopResult` returns `r` itself if `r` is a string;
otherwise the `message` field if it is truthy; else the `response` field if
it is truthy; else the JSON serialization of `r` (the field kept may be any
truthy value, not only a string). -/
theorem unwrapStopResult_characterization (r : JVal) :
    (r.isString = true → unwrapStopResult r = r) ∧
    (r.isString = false → (r.getField "message").truthy = true →
      unwrapStopResult r = r.getField "message") ∧
    (r.isString = false → (r.getField "message").truthy = false →
      (r.getField "response").truthy = true →
      unwrapStopResult r = r.getField "response") ∧
    (r.isString = false → (r.getField "message").truthy = false →
      (r.getField "response").truthy = false →
      unwrapStopResult r =
        (match jsonStringify r with
          | some s => .jstr s
          | none => .jundefined)) := by
  refine ⟨fun h => ?_, fun h hm => ?_, fun h hm hr => ?_, fun h hm hr => ?_⟩
  · simp [unwrapStopResult, h]
  · simp [unwrapStopResult, h, hm]
  · simp [unwrapStopResult, h, hm, hr]
  · simp [unwrapStopResult, h, hm, hr]

/-- C3 witness: the characterization applied at `\x7bresponse: "ok"\x7d`. -/
theorem unwrapStopResult_characterization_witness :
    unwrapStopResult (.jobj [("response", .jstr "ok")]) = .jstr "ok" :=
  (unwrapStopResult_characterization (.jobj [("response", .jstr "ok")])).2.2.1
    rfl rfl rfl

/-- C10: `buildTools` silently omits every unresolvable action name — the
compiled list is exactly the tools of the names the registry resolves, in
order; an unknown name strictly shortens the list instead of raising. -/
theorem buildTools_silent_omission (registry : Registry)
    (availableActions : List String) :
    buildTools registry availableActions =
      availableActions.filterMap (fun n => (registry n).map buildTool) ∧
    (buildTools registry availableActions).length =
      (availableActions.filter (fun n => (registry n).isSome)).length ∧
    (∀ n ∈ availableActions, registry n = none →
      (buildTools registry availableActions).length < availableActions.length) := by
  have h1 : buildTools registry availableActions =
      availableActions.filterMap (fun n => (registry n).map buildTool) := by
    induction availableActions with
    | nil => rfl
    | cons hd tl ih =>
        simp only [buildTools, List.map_cons, List.filterMap_cons] at *
        cases registry hd with
        | none => simpa [List.reduceOption_cons_of_none] using ih
        | some a => simpa [List.reduceOption_cons_of_some] using ih
  have h2 : (buildTools registry availableActions).length =
      (availableActions.filter (fun n => (registry n).isSome)).length := by
    rw [h1]; clear h1
    induction availableActions with
    | nil => rfl
    | cons hd tl ih =>
        simp only [List.filterMap_cons, List.filter_cons]
        cases registry hd with
        | none => simpa using ih
        | some a => simpa using ih
  refine ⟨h1, h2, fun n hn hnone => ?_⟩
  rw [h2]
  refine List.length_filter_lt_length_iff_exists.mpr ⟨n, hn, ?_⟩
  simp [hnone]

/-- A tiny registry used by concrete witnesses: one registered action. -/
def pingAction : ActionDef :=
  { name := "ping", description := some "Ping it",
    input_schema := some { properties := [("url", { type := "string" })], required := ["url"] } }

/-- Witness registry resolving only `"ping"`. -/
def reg0 : Registry := fun n => if n = "ping" then some pingAction else none

/-- C10 witness: with one unknown name the compiled list is strictly
shorter than the name list. -/
theorem buildTools_silent_omission_witness :
    (buildTools reg0 ["ping", "nope"]).length < 2 :=
  (buildTools_silent_omission reg0 ["ping", "nope"]).2.2 "nope" (by simp) (by rfl)

/-! ## Parameter validation and action execution
(`src/modules/executor.js`, `validateParams` / `executeAction`) -/

/-- A JS object of input parameters (own enumerable properties, in order). -/
abbrev Params := List (String × JVal)

/-- `params[k]` together with `k in params`: `none` when the key is absent. -/
def lookupParam (params : Params) (k : String) : Option JVal :=
  (params.find? (fun f => f.1 = k)).map (·.2)

/-- `v === undefined`. -/
def JVal.isUndef : JVal → Bool
  | .jundefined => true
  | _ => false

/-- `typeof v === 'number'`. -/
def JVal.isNumber : JVal → Bool
  | .jnum _ => true
  | _ => false

/-- `typeof v === 'boolean'`. -/
def JVal.isBoolean : JVal → Bool
  | .jbool _ => true
  | _ => false

/-- `Array.isArray(v)`. -/
def JVal.isArray : JVal → Bool
  | .jarr _ => true
  | _ => false

/-- Is `t` one of the five primitive type names the validator checks? -/
def declaredKind (t : String) : Bool :=
  t = "string" || t = "number" || t = "boolean" || t = "array" || t = "object"

/-- Does the runtime kind of `v` satisfy declared type `t`?  Mirrors the
`else if` chain of `validateParams`: note `typeof null === 'object'` in JS,
so `null` passes the `object` check, while arrays are excluded from it. -/
def kindMatches (t : String) (v : JVal) : Bool :=
  if t = "string" then v.isString
  else if t = "number" then v.isNumber
  else if t = "boolean" then v.isBoolean
  else if t = "array" then v.isArray
  else if t = "object" then
    (match v with
      | .jobj _ => true
      | .jnull => true
      | _ => false)
  else true

/-- The failure message of one type check (`Field k must be a/an t`). -/
def typeMessage (key t : String) : String :=
  "Field " ++ key ++ " must be " ++ (if t = "array" || t = "object" then "an " else "a ") ++ t

/-- One property type check of `validateParams`: an error exactly when `t`
is a checked kind and the value does not match it. -/
def typeError1 (key t : String) (v : JVal) : Option String :=
  if declaredKind t then (if kindMatches t v then none else some (typeMessage key t))
  else none

/-- One required-field check of `validateParams`:
`!(field in params) || params[field] === undefined`. -/
def requiredError (params : Params) (field : String) : Option String :=
  match lookupParam params field with
  | none => some ("Missing required field: " ++ field)
  | some v => if v.isUndef then some ("Missing required field: " ++ field) else none

/-- One present-property check of `validateParams`: checked only when the
key is present and its value is not `undefined`. -/
def typeCheckError (params : Params) (key : String) (prop : PropSpec) : Option String :=
  match lookupParam params key with
  | none => none
  | some v => if v.isUndef then none else typeError1 key prop.type v

/-- The result object `{valid, errors}` of `validateParams`. -/
structure ValidationResult where
  valid : Bool
  errors : List String
  deriving Repr, DecidableEq

/-- `validateParams` from `src/modules/executor.js` lines 44-64: required
fields first, then type checks of the present properties, aggregated into
one error list; `valid` iff the list stayed empty. -/
def validateParams (params : Params) (schema : Schema) : ValidationResult :=
  let errors :=
    schema.required.filterMap (requiredError params) ++
      schema.properties.filterMap (fun kp => typeCheckError params kp.1 kp.2)
  ⟨errors.isEmpty, errors⟩

/-- A procedural step body: `(params, prevResult) => result-or-throw`.
Opaque to the executor. -/
def StepFn := Params → JVal → Except String JVal

/-- The error kinds `executeAction` can raise: a *Validation* error
(`isValidationError = true`, carrying `validationErrors`), or a wrapped
step failure `Step i+1 failed: msg`. -/
inductive ExecErr where
  | validation (message : String) (validationErrors : List String)
  | step (i : Nat) (message : String)
  deriving Repr, DecidableEq

/-- The step loop of `executeAction`: runs steps in order, threading the
previous result (initially `null`), wrapping the first failure.  Also
returns how many step bodies were invoked. -/
def execSteps (params : Params) (steps : List StepFn) (prev : JVal) (i : Nat) :
    Except ExecErr JVal × Nat :=
  match steps with
  | [] => (.ok prev, 0)
  | st :: rest =>
      match st params prev with
      | .ok r =>
          let out := execSteps params rest r (i + 1)
          (out.1, out.2 + 1)
      | .error msg =>
          (.error (.step i ("Step " ++ toString (i + 1) ++ " failed: " ++ msg)), 1)

/-- `executeAction` from `src/modules/executor.js` lines 66-91: validate
against `input_schema` when present, then walk the step list.  The second
component counts invoked step bodies (for stating that validation happens
before any step runs). -/
def executeAction (action : ActionDef) (params : Params) (steps : List StepFn) :
    Except ExecErr JVal × Nat :=
  match action.input_schema with
  | some schema =>
      let v := validateParams params schema
      if v.valid then execSteps params steps .jnull 0
      else
        (.error (.validation
          ("Validation failed for " ++ action.name ++ ": " ++ String.intercalate ", " v.errors)
          v.errors), 0)
  | none => execSteps params steps .jnull 0

lemma JVal.isUndef_eq_true_iff (v : JVal) : v.isUndef = true ↔ v = .jundefined := by
  cases v <;> simp [JVal.isUndef]

lemma requiredError_ne_none_iff (params : Params) (f : String) :
    requiredError params f ≠ none ↔
      lookupParam params f = none ∨ lookupParam params f = some .jundefined := by
  unfold requiredError
  cases h : lookupParam params f with
  | none => simp
  | some v =>
      by_cases hu : v.isUndef = true
      · simp [hu, (JVal.isUndef_eq_true_iff v).mp hu, JVal.isUndef]
      · have hv : v ≠ JVal.jundefined := fun he => hu (by simp [he, JVal.isUndef])
        simp [Bool.not_eq_true] at hu
        simp [hu, hv]

lemma typeCheckError_ne_none_iff (params : Params) (key : String) (prop : PropSpec) :
    typeCheckError params key prop ≠ none ↔
      ∃ v, lookupParam params key = some v ∧ v.isUndef = false ∧
        declaredKind prop.type = true ∧ kindMatches prop.type v = false := by
  unfold typeCheckError typeError1
  cases h : lookupParam params key with
  | none => simp
  | some v =>
      by_cases hu : v.isUndef = true <;> by_cases hd : declaredKind prop.type = true <;>
        by_cases hk : kindMatches prop.type v = true <;>
          simp_all [Bool.not_eq_true]

lemma isEmpty_false_iff {α : Type _} (l : List α) : l.isEmpty = false ↔ l ≠ [] := by
  cases l <;> simp

lemma append_ne_nil_iff {α : Type _} (xs ys : List α) :
    xs ++ ys ≠ [] ↔ xs ≠ [] ∨ ys ≠ [] := by
  cases xs <;> simp

lemma filterMap_ne_nil_iff {α β : Type _} (f : α → Option β) (l : List α) :
    l.filterMap f ≠ [] ↔ ∃ a ∈ l, f a ≠ none := by
  induction l with
  | nil => simp
  | cons hd tl ih => cases h : f hd <;> simp [List.filterMap_cons, h, ih]

/-- C4: an input failing the action's `input_schema` — a required field
missing or `undefined`, or a present field whose runtime kind does not
match its declared primitive type (arrays excluded from `object`) — makes
`executeAction` raise a single *Validation* error carrying the full list
of failure messages, before any step body has run (zero steps invoked). -/
theorem executeAction_validation_precedence (action : ActionDef) (params : Params)
    (steps : List StepFn) (schema : Schema)
    (hs : action.input_schema = some schema) :
    ((validateParams params schema).valid = false ↔
      (∃ f ∈ schema.required,
          lookupParam params f = none ∨ lookupParam params f = some .jundefined) ∨
      (∃ kp ∈ schema.properties, ∃ v, lookupParam params kp.1 = some v ∧
          v.isUndef = false ∧ declaredKind kp.2.type = true ∧
          kindMatches kp.2.type v = false)) ∧
    ((validateParams params schema).valid = false →
      executeAction action params steps =
        (.error (.validation
            ("Validation failed for " ++ action.name ++ ": " ++
              String.intercalate ", " (validateParams params schema).errors)
            (validateParams params schema).errors), 0)) := by
  constructor
  · show (List.isEmpty _) = false ↔ _
    rw [isEmpty_false_iff, append_ne_nil_iff, filterMap_ne_nil_iff, filterMap_ne_nil_iff]
    constructor
    · rintro (⟨f, hf, hne⟩ | ⟨kp, hkp, hne⟩)
      · exact Or.inl ⟨f, hf, (requiredError_ne_none_iff params f).mp hne⟩
      · exact Or.inr ⟨kp, hkp, (typeCheckError_ne_none_iff params kp.1 kp.2).mp hne⟩
    · rintro (⟨f, hf, hcond⟩ | ⟨kp, hkp, hcond⟩)
      · exact Or.inl ⟨f, hf, (requiredError_ne_none_iff params f).mpr hcond⟩
      · exact Or.inr ⟨kp, hkp, (typeCheckError_ne_none_iff params kp.1 kp.2).mpr hcond⟩
  · intro hv
    unfold executeAction
    rw [hs]
    simp [hv]

/-- C4 witness: `ping` requires `url : string`; a numeric `url` raises the
aggregated Validation error with zero steps run. -/
theorem executeAction_validation_precedence_witness :
    executeAction pingAction [("url", .jnum 5)] [] =
      (.error (.validation "Validation failed for ping: Field url must be a string"
        ["Field url must be a string"]), 0) := by
  have h := (executeAction_validation_precedence pingAction [("url", .jnum 5)] []
    { properties := [("url", { type := "string" })], required := ["url"] } rfl).2 rfl
  simpa using h

/-! ## Model cascade: skip/back-off bookkeeping
(`src/modules/llm.js` lines 27-38, `src/modules/llm/models.js` lines 52-76,
`src/unnamed/part_011` `generate`) -/

/-- The per-model record of `src/modules/llm.js` (`modelFailures` map):
consecutive `failures` and `skips` counters. -/
structure FailureTracker where
  failures : Nat
  skips : Nat
  deriving Repr, DecidableEq

/-- `shouldSkip` from `src/modules/llm.js` lines 27-32, acting on the
model's tracker entry (`none` when the map has no entry): returns the
decision and the updated entry (`t.skips++` happens exactly on a skip). -/
def shouldSkip (t : Option FailureTracker) : Bool × Option FailureTracker :=
  match t with
  | none => (false, none)
  | some t =>
      if t.failures = 0 then (false, some t)
      else if t.skips < t.failures then (true, some { t with skips := t.skips + 1 })
      else (false, some t)

/-- The tracker after `j` consecutive `shouldSkip` calls starting from
`failures = e, skips = 0`. -/
def skipIter (e : Nat) : Nat → Option FailureTracker
  | 0 => some ⟨e, 0⟩
  | j + 1 => (shouldSkip (skipIter e j)).2

/-- Modelled from the spec: the health-counter totals consumed by
`src/modules/llm/models.js`.  The counter implementation that pairs with
`models.js` (one with a metric-level `reset(key, metrics)` and a
three-argument `modelStatsKey`) is not among the bundled sources — the
two `TimeBucketCounter` variants in `src/modules/time-bucket-counter.js`
only reset whole keys and build keys from `(model, providers)` — so the
spec's reading (§4.6/§4.7: per-`(endpoint, model, provider)` triple,
metrics `success`/`error`/`skip`, `recordSuccess` "resets error and skip
counters") is modelled directly as per-metric totals. -/
structure HealthStats where
  success : Nat := 0
  error : Nat := 0
  skip : Nat := 0
  deriving Repr, DecidableEq

/-- The `(endpoint, model, provider-hint)` triple identifying a health
record. -/
abbrev ModelKey := String × String × String

/-- Modelled from the spec: the counter store, one totals record per
triple. -/
def HealthState := ModelKey → HealthStats

/-- Point update of one key's record. -/
def hcUpdate (st : HealthState) (key : ModelKey) (f : HealthStats → HealthStats) :
    HealthState :=
  fun k => if k = key then f (st k) else st k

/-- `shouldSkip` from `src/modules/llm/models.js` lines 52-64: read the
triple's totals; no skip when `errors === 0`; skip and increment the
`skip` metric when `skips < errors`. -/
def modelsShouldSkip (st : HealthState) (key : ModelKey) : Bool × HealthState :=
  let stats := st key
  if stats.error = 0 then (false, st)
  else if stats.skip < stats.error then
    (true, hcUpdate st key (fun s => { s with skip := s.skip + 1 }))
  else (false, st)

/-- `recordError` from `src/modules/llm/models.js` lines 72-76: increment
the `error` metric, then reset the `skip` metric. -/
def recordError (st : HealthState) (key : ModelKey) : HealthState :=
  hcUpdate st key (fun s => { s with error := s.error + 1, skip := 0 })

/-- `recordSuccess` from `src/modules/llm/models.js` lines 66-70: reset the
`error` and `skip` metrics, then increment the `success` metric. -/
def recordSuccess (st : HealthState) (key : ModelKey) : HealthState :=
  hcUpdate st key (fun s => { success := s.success + 1, error := 0, skip := 0 })

/-- A tool call as produced by the model: `{id, function: {name,
arguments}}`.  A missing or empty `function.name` is modelled by
`name = ""` (both are falsy in the source's validity check); the
`arguments` JSON string is modelled by its parse outcome. -/
inductive ArgSrc : Type where
  | parses (v : JVal)
  | malformed (raw : String)
  deriving Repr

structure ToolCall where
  id : String
  name : String
  args : ArgSrc
  deriving Repr

/-- An assistant message returned by the chat-completions API
(`choices[0].message`). -/
structure GenMsg where
  content : Option String := none
  tool_calls : List ToolCall := []
  deriving Repr

/-- `tools && result.tool_calls?.length && !result.tool_calls[0].function?.name`
from `src/unnamed/part_011` (an array-valued `tools` is truthy in JS even
when empty, so the gate is just presence of the `tools` argument). -/
def invalidToolCall (tools : Option (List Tool)) (m : GenMsg) : Bool :=
  tools.isSome &&
    (match m.tool_calls with
      | [] => false
      | c :: _ => c.name = "")

/-- One cascade entry as produced by `getCascadingModels`
(`src/modules/llm/models.js` lines 41-50). -/
structure CascadeEntry where
  endpoint : String
  model : String
  openrouterProvider : String
  noToolChoice : Bool := false
  deriving Repr, DecidableEq

/-- The entry's health-record key (per-triple). -/
def CascadeEntry.key (e : CascadeEntry) : ModelKey :=
  (e.endpoint, e.model, e.openrouterProvider)

/-- The environment of one `generate` run: endpoint configuration flag, the
API as an oracle indexed by attempt count, and the fallback ordering.
The fallback ordering (`getAllModelsSortedByRecentErrors`, sorted by
errors-in-last-hour) depends on time-bucket data the modelled counter does
not carry, so it is supplied abstractly; the claims only exercise the
primary pass. -/
structure GenEnv where
  initialized : Bool
  api : Nat → Except String GenMsg
  fallbackOrder : List CascadeEntry


/-- The fallback pass of `generate` (`src/unnamed/part_011` lines 77-98):
retry every configured model in best-health order, ignoring the skip gate;
exhaustion raises `All models failed`. -/
def fallbackPass (env : GenEnv) (tools : Option (List Tool)) :
    List CascadeEntry → HealthState → Nat → Option String →
      Except String GenMsg × HealthState × Nat
  | [], st, a, lastErr =>
      (.error ("All models failed. Last error: " ++ lastErr.getD "Unknown"), st, a)
  | e :: rest, st, a, lastErr =>
      match env.api a with
      | .ok m =>
          if invalidToolCall tools m then
            fallbackPass env tools rest (recordError st e.key) (a + 1)
              (some "Invalid tool call: missing function name")
          else (.ok m, recordSuccess st e.key, a + 1)
      | .error msg => fallbackPass env tools rest (recordError st e.key) (a + 1) (some msg)

/-- The primary pass of `generate` (`src/unnamed/part_011` lines 45-75):
walk the cascade in order; skip back-off entries; record an error and move
on when the call throws or the tool-call shape is invalid; record a
success and return the first good message.  The third component counts
API attempts. -/
def primaryPass (env : GenEnv) (tools : Option (List Tool)) :
    List CascadeEntry → HealthState → Nat → Option String →
      Except String GenMsg × HealthState × Nat
  | [], st, a, lastErr => fallbackPass env tools env.fallbackOrder st a lastErr
  | e :: rest, st, a, lastErr =>
      let sk := modelsShouldSkip st e.key
      if sk.1 then primaryPass env tools rest sk.2 a lastErr
      else
        match env.api a with
        | .ok m =>
            if invalidToolCall tools m then
              primaryPass env tools rest (recordError sk.2 e.key) (a + 1)
                (some "Invalid tool call: missing function name")
            else (.ok m, recordSuccess sk.2 e.key, a + 1)
        | .error msg => primaryPass env tools rest (recordError sk.2 e.key) (a + 1) (some msg)

/-- `generate` from `src/unnamed/part_011` lines 36-101: argument and
initialization guards, then the primary cascade pass (with fallback).
`cascade` is the list `getCascadingModels(intelligence)` resolves to. -/
def generate (env : GenEnv) (cascade : List CascadeEntry) (st : HealthState)
    (tools : Option (List Tool)) (schema : Option Schema) :
    Except String GenMsg × HealthState × Nat :=
  if (match tools with | none => true | some ts => ts.isEmpty) && schema.isNone then
    (.error "Either tools or schema is required", st, 0)
  else if !env.initialized then
    (.error "No LLM endpoints configured", st, 0)
  else primaryPass env tools cascade st 0 none

lemma skipIter_eq (e : Nat) : ∀ j, skipIter e j = some ⟨e, min j e⟩ := by
  intro j
  induction j with
  | zero => simp [skipIter]
  | succ j ih =>
      rw [skipIter, ih, shouldSkip]
      by_cases he0 : e = 0
      · subst he0; simp
      · by_cases hj : j < e
        · have h1 : min j e = j := by omega
          have h2 : min (j + 1) e = j + 1 := by omega
          simp [he0, h1, h2, hj]
        · have h1 : min j e = e := by omega
          have h2 : min (j + 1) e = e := by omega
          simp [he0, h1, h2]

/-- C5: an entry with recorded counters `errors = e`, `skips = s` is
skipped iff `s < e`, each skipped call increments `skips` by exactly one
(in both the in-memory `llm.js` tracker and the counter-backed
`models.js` variant), and after `e` consecutive skipped calls from
`skips = 0` the entry is attempted again. -/
theorem shouldSkip_backoff (e s : Nat) (st : HealthState) (key : ModelKey)
    (he : (st key).error = e) (hs : (st key).skip = s) :
    ((shouldSkip (some ⟨e, s⟩)).1 = decide (s < e)) ∧
    (s < e → (shouldSkip (some ⟨e, s⟩)).2 = some ⟨e, s + 1⟩) ∧
    (¬ s < e → (shouldSkip (some ⟨e, s⟩)).2 = some ⟨e, s⟩) ∧
    ((modelsShouldSkip st key).1 = decide (s < e)) ∧
    (s < e → ((modelsShouldSkip st key).2 key).skip = s + 1 ∧
      ((modelsShouldSkip st key).2 key).error = e) ∧
    (∀ j, j < e → (shouldSkip (skipIter e j)).1 = true) ∧
    ((shouldSkip (skipIter e e)).1 = false) := by
  refine ⟨?_, ?_, ?_, ?_, ?_, ?_, ?_⟩
  · by_cases he0 : e = 0
    · subst he0; simp [shouldSkip]
    · by_cases hse : s < e <;> simp [shouldSkip, he0, hse]
  · intro hse
    have he0 : e ≠ 0 := by omega
    simp [shouldSkip, he0, hse]
  · intro hse
    by_cases he0 : e = 0
    · subst he0; simp [shouldSkip]
    · simp [shouldSkip, he0, hse]
  · by_cases he0 : e = 0
    · simp [modelsShouldSkip, he, hs, he0]
    · by_cases hse : s < e <;> simp [modelsShouldSkip, he, hs, he0, hse]
  · intro hse
    have he0 : e ≠ 0 := by omega
    simp [modelsShouldSkip, he, hs, he0, hse, hcUpdate]
  · intro j hj
    rw [skipIter_eq]
    have h1 : min j e = j := by omega
    have he0 : e ≠ 0 := by omega
    simp [shouldSkip, he0, h1, hj]
  · rw [skipIter_eq]
    by_cases he0 : e = 0
    · subst he0; simp [shouldSkip]
    · have h1 : min e e = e := by omega
      simp [shouldSkip, he0, h1]

/-- C5 witness: at `errors = 2`: with `skips = 1` the entry is skipped,
and after two consecutive skips it is attempted again. -/
theorem shouldSkip_backoff_witness :
    (shouldSkip (some ⟨2, 1⟩)).1 = true ∧ (shouldSkip (skipIter 2 2)).1 = false := by
  have h := shouldSkip_backoff 2 1 (fun _ => ⟨0, 2, 1⟩) ("o", "m", "p") rfl rfl
  exact ⟨by simpa using h.1, h.2.2.2.2.2.2⟩

/-- Would the skip gate fire on this record right now? -/
def skipNow (s : HealthStats) : Bool :=
  if s.error = 0 then false else decide (s.skip < s.error)

/-- Attempt `i` of the API fails: the call throws, or returns a message
whose first tool call lacks a function name. -/
def attemptFails (api : Nat → Except String GenMsg) (tools : Option (List Tool))
    (i : Nat) : Prop :=
  (∃ msg, api i = .error msg) ∨
    (∃ m, api i = .ok m ∧ invalidToolCall tools m = true)

/-- The record after `recordError`. -/
def bumpedError (s : HealthStats) : HealthStats :=
  { s with error := s.error + 1, skip := 0 }

/-- The record after `recordSuccess`. -/
def bumpedSuccess (s : HealthStats) : HealthStats :=
  { success := s.success + 1, error := 0, skip := 0 }

lemma modelsShouldSkip_of_noskip (st : HealthState) (key : ModelKey)
    (h : skipNow (st key) = false) : modelsShouldSkip st key = (false, st) := by
  unfold skipNow at h
  unfold modelsShouldSkip
  by_cases he : (st key).error = 0
  · simp [he]
  · simp [he] at h ⊢
    omega

lemma recordError_same (st : HealthState) (key : ModelKey) :
    recordError st key key = bumpedError (st key) := by
  simp [recordError, hcUpdate, bumpedError]

lemma recordError_other (st : HealthState) (key q : ModelKey) (h : q ≠ key) :
    recordError st key q = st q := by
  simp [recordError, hcUpdate, h]

lemma recordSuccess_same (st : HealthState) (key : ModelKey) :
    recordSuccess st key key = bumpedSuccess (st key) := by
  simp [recordSuccess, hcUpdate, bumpedSuccess]

lemma recordSuccess_other (st : HealthState) (key q : ModelKey) (h : q ≠ key) :
    recordSuccess st key q = st q := by
  simp [recordSuccess, hcUpdate, h]


lemma mem_take_succ_of_mem_take {α : Type _} :
    ∀ (l : List α) (j : Nat) (x : α), x ∈ l.take j → x ∈ l.take (j + 1) := by
  intro l
  induction l with
  | nil => intro j x h; simp at h
  | cons a tl ih =>
      intro j x h
      cases j with
      | zero => simp at h
      | succ j =>
          rw [List.take_succ_cons] at h ⊢
          rcases List.mem_cons.mp h with h | h
          · exact h ▸ List.mem_cons_self a _
          · exact List.mem_cons_of_mem a (ih j x h)

lemma get_mem_take_succ {α : Type _} :
    ∀ (l : List α) (j : Nat) (h : j < l.length), l.get ⟨j, h⟩ ∈ l.take (j + 1) := by
  intro l
  induction l with
  | nil => intro j h; simp at h
  | cons a tl ih =>
      intro j h
      cases j with
      | zero => simp
      | succ j =>
          rw [List.take_succ_cons]
          exact List.mem_cons_of_mem a (ih j (by simpa using h))

lemma primaryPass_cascade_spec (env : GenEnv) (tools : Option (List Tool)) :
    ∀ (entries : List CascadeEntry) (st : HealthState) (a k : Nat) (m : GenMsg)
      (lastErr : Option String) (hk : k < entries.length),
      ((entries.take (k + 1)).map CascadeEntry.key).Nodup →
      (∀ x ∈ entries.take (k + 1), skipNow (st x.key) = false) →
      (∀ i, i < k → attemptFails env.api tools (a + i)) →
      env.api (a + k) = .ok m →
      invalidToolCall tools m = false →
      (primaryPass env tools entries st a lastErr).1 = .ok m ∧
      (primaryPass env tools entries st a lastErr).2.2 = a + k + 1 ∧
      (primaryPass env tools entries st a lastErr).2.1 ((entries.get ⟨k, hk⟩).key) =
        bumpedSuccess (st ((entries.get ⟨k, hk⟩).key)) ∧
      (∀ x ∈ entries.take k,
        (primaryPass env tools entries st a lastErr).2.1 x.key = bumpedError (st x.key)) ∧
      (∀ q : ModelKey, (∀ x ∈ entries.take (k + 1), q ≠ x.key) →
        (primaryPass env tools entries st a lastErr).2.1 q = st q) := by
  intro entries
  induction entries with
  | nil => intro st a k m lastErr hk; exact absurd hk (by simp)
  | cons e rest ih =>
      intro st a k m lastErr hk hnodup hnoskip hfail hok hvalid
      have hse : skipNow (st e.key) = false := hnoskip e (by simp [List.take_succ_cons])
      have hms := modelsShouldSkip_of_noskip st e.key hse
      cases k with
      | zero =>
          have hok0 : env.api a = .ok m := by simpa using hok
          have hpp : primaryPass env tools (e :: rest) st a lastErr =
              (.ok m, recordSuccess st e.key, a + 1) := by
            simp only [primaryPass]
            rw [hms]
            simp [hok0, hvalid]
          refine ⟨by rw [hpp], by rw [hpp], ?_, by simp, ?_⟩
          · rw [hpp]
            simpa using recordSuccess_same st e.key
          · intro q hq
            rw [hpp]
            exact recordSuccess_other st e.key q
              (hq e (by simp [List.take_succ_cons]))
      | succ j =>
          have hj : j < rest.length := by simpa using hk
          have hkey_notin : e.key ∉ (rest.take (j + 1)).map CascadeEntry.key := by
            have h := hnodup
            rw [List.take_succ_cons, List.map_cons, List.nodup_cons] at h
            exact h.1
          have hne : ∀ x ∈ rest.take (j + 1), e.key ≠ x.key := by
            intro x hx hcontra
            exact hkey_notin (by
              rw [hcontra]
              exact List.mem_map_of_mem CascadeEntry.key hx)
          have hnodup' : ((rest.take (j + 1)).map CascadeEntry.key).Nodup := by
            have h := hnodup
            rw [List.take_succ_cons, List.map_cons, List.nodup_cons] at h
            exact h.2
          have hfail0 := hfail 0 (by omega)
          have hstep : ∃ le2, primaryPass env tools (e :: rest) st a lastErr =
              primaryPass env tools rest (recordError st e.key) (a + 1) le2 := by
            rcases hfail0 with ⟨msg, hmsg⟩ | ⟨m0, hm0, hinv⟩
            · refine ⟨some msg, ?_⟩
              have ha : env.api a = .error msg := by simpa using hmsg
              simp only [primaryPass]
              rw [hms]
              simp [ha]
            · refine ⟨some "Invalid tool call: missing function name", ?_⟩
              have ha : env.api a = .ok m0 := by simpa using hm0
              simp only [primaryPass]
              rw [hms]
              simp [ha, hinv]
          rcases hstep with ⟨le2, hstep⟩
          have hnoskip' : ∀ x ∈ rest.take (j + 1),
              skipNow (recordError st e.key x.key) = false := by
            intro x hx
            rw [recordError_other st e.key x.key (fun hxx => hne x hx hxx.symm)]
            exact hnoskip x (by
              rw [List.take_succ_cons]
              exact List.mem_cons_of_mem e hx)
          have hfail' : ∀ i, i < j → attemptFails env.api tools (a + 1 + i) := by
            intro i hi
            have h := hfail (i + 1) (by omega)
            rwa [show a + (i + 1) = a + 1 + i by omega] at h
          have hok' : env.api (a + 1 + j) = .ok m := by
            rwa [show a + (j + 1) = a + 1 + j by omega] at hok
          obtain ⟨h1, h2, h3, h4, h5⟩ :=
            ih (recordError st e.key) (a + 1) j m le2 hj hnodup' hnoskip' hfail' hok' hvalid
          refine ⟨by rw [hstep]; exact h1, ?_, ?_, ?_, ?_⟩
          · rw [hstep, h2]; omega
          · rw [hstep]
            have hgetj : rest.get ⟨j, hj⟩ ∈ rest.take (j + 1) := get_mem_take_succ rest j hj
            have hrw : recordError st e.key ((rest.get ⟨j, hj⟩).key) =
                st ((rest.get ⟨j, hj⟩).key) :=
              recordError_other st e.key _ (fun hxx => hne _ hgetj hxx.symm)
            have hget : (e :: rest).get ⟨j + 1, hk⟩ = rest.get ⟨j, hj⟩ := rfl
            rw [hget, h3, hrw]
          · intro x hx
            rw [hstep]
            rw [List.take_succ_cons] at hx
            rcases List.mem_cons.mp hx with hx | hx
            · subst hx
              rw [h5 x.key hne, recordError_same]
            · have hxk : x.key ≠ e.key := fun hxx =>
                hne x (mem_take_succ_of_mem_take rest j x hx) hxx.symm
              rw [h4 x hx, recordError_other st e.key x.key hxk]
          · intro q hq
            rw [hstep]
            have hq' : ∀ x ∈ rest.take (j + 1), q ≠ x.key := by
              intro x hx
              exact hq x (by
                rw [List.take_succ_cons]
                exact List.mem_cons_of_mem e hx)
            have hqe : q ≠ e.key := hq e (by simp [List.take_succ_cons])
            rw [h5 q hq', recordError_other st e.key q hqe]

/-- C6: when the first `k` cascade entries are attempted and fail and entry
`k+1` succeeds, `generate` returns the `(k+1)`-th entry's message, each
failed entry's `error` total is incremented (its `skip` total reset), the
successful entry's `error` and `skip` totals are reset (and `success`
incremented), and every other triple's record is untouched. -/
theorem generate_cascade_ordering (env : GenEnv) (cascade : List CascadeEntry)
    (st : HealthState) (k : Nat) (m : GenMsg) (ts : List Tool)
    (hts : ts ≠ []) (hinit : env.initialized = true)
    (hk : k < cascade.length)
    (hnodup : ((cascade.take (k + 1)).map CascadeEntry.key).Nodup)
    (hnoskip : ∀ x ∈ cascade.take (k + 1), skipNow (st x.key) = false)
    (hfail : ∀ i, i < k → attemptFails env.api (some ts) i)
    (hok : env.api k = .ok m)
    (hvalid : invalidToolCall (some ts) m = false) :
    (generate env cascade st (some ts) none).1 = .ok m ∧
    (generate env cascade st (some ts) none).2.2 = k + 1 ∧
    (generate env cascade st (some ts) none).2.1 ((cascade.get ⟨k, hk⟩).key) =
      bumpedSuccess (st ((cascade.get ⟨k, hk⟩).key)) ∧
    (∀ x ∈ cascade.take k,
      (generate env cascade st (some ts) none).2.1 x.key = bumpedError (st x.key)) ∧
    (∀ q : ModelKey, (∀ x ∈ cascade.take (k + 1), q ≠ x.key) →
      (generate env cascade st (some ts) none).2.1 q = st q) := by
  have hgen : generate env cascade st (some ts) none =
      primaryPass env (some ts) cascade st 0 none := by
    unfold generate
    simp [hinit, hts]
  have hfail0 : ∀ i, i < k → attemptFails env.api (some ts) (0 + i) := by
    intro i hi
    rw [show 0 + i = i by omega]
    exact hfail i hi
  have hok0 : env.api (0 + k) = .ok m := by
    rwa [show 0 + k = k by omega]
  obtain ⟨h1, h2, h3, h4, h5⟩ := primaryPass_cascade_spec env (some ts) cascade st 0 k m
    none hk hnodup hnoskip hfail0 hok0 hvalid
  rw [hgen]
  exact ⟨h1, by rw [h2]; omega, h3, h4, h5⟩

/-- Cascade entries used by the C6 witness. -/
def genEntryA : CascadeEntry := ⟨"openrouter", "m1", "p1", false⟩

def genEntryB : CascadeEntry := ⟨"openrouter", "m2", "p2", false⟩

/-- The message the second model answers with in the C6 witness. -/
def genMsgW : GenMsg := { content := some "hi" }

/-- C6 witness environment: the first attempt returns HTTP-level failure,
the second succeeds. -/
def genEnvW : GenEnv :=
  { initialized := true
    api := fun i => if i = 0 then .error "503" else .ok genMsgW
    fallbackOrder := [] }

/-- C6 witness: with cascade `[A, B]` where `A` fails once, `generate`
returns `B`'s message after two attempts, records one error on `A` and
resets/increments `B`'s counters. -/
theorem generate_cascade_ordering_witness :
    (generate genEnvW [genEntryA, genEntryB] (fun _ => ⟨0, 0, 0⟩)
        (some [buildTool pingAction]) none).1 = .ok genMsgW ∧
    (generate genEnvW [genEntryA, genEntryB] (fun _ => ⟨0, 0, 0⟩)
        (some [buildTool pingAction]) none).2.1 genEntryA.key = ⟨0, 1, 0⟩ ∧
    (generate genEnvW [genEntryA, genEntryB] (fun _ => ⟨0, 0, 0⟩)
        (some [buildTool pingAction]) none).2.1 genEntryB.key = ⟨1, 0, 0⟩ := by
  obtain ⟨h1, h2, h3, h4, h5⟩ := generate_cascade_ordering genEnvW [genEntryA, genEntryB]
    (fun _ => ⟨0, 0, 0⟩) 1 genMsgW [buildTool pingAction]
    (by simp) rfl (by simp)
    (by decide)
    (fun x _ => rfl)
    (by
      intro i hi
      have : i = 0 := by omega
      subst this
      exact Or.inl ⟨"503", rfl⟩)
    rfl rfl
  refine ⟨h1, ?_, ?_⟩
  · have h := h4 genEntryA (by simp)
    simpa [bumpedError] using h
  · simpa [bumpedSuccess] using h3

/-! ## Time-bucketed counter
(`src/modules/time-bucket-counter.js` lines 6-61, first variant) -/

/-- One `{ts, count}` bucket. -/
structure Bucket where
  ts : Int
  count : Int
  deriving Repr, DecidableEq

def MINUTE : Int := 60000

def HOUR : Int := 60 * MINUTE

def DAY : Int := 24 * HOUR

/-- `getBucketTs`: `Math.floor(time / duration) * duration`. -/
def getBucketTs (time duration : Int) : Int := time.fdiv duration * duration

/-- Find-or-push plus `count += amount` on a bucket list: the first bucket
with the given timestamp is updated in place, otherwise a fresh bucket is
appended at the end (as `Array.prototype.push` does). -/
def bumpBucket : List Bucket → Int → Int → List Bucket
  | [], ts, amount => [⟨ts, amount⟩]
  | b :: rest, ts, amount =>
      if b.ts = ts then ⟨b.ts, b.count + amount⟩ :: rest
      else b :: bumpBucket rest ts amount

/-- Stable insertion of a bucket by timestamp (after all earlier buckets
with a smaller-or-equal timestamp). -/
def insertByTs (x : Bucket) : List Bucket → List Bucket
  | [] => [x]
  | y :: rest => if x.ts < y.ts then x :: y :: rest else y :: insertByTs x rest

/-- `Array.prototype.sort((a, b) => a.ts - b.ts)`: a stable sort by
timestamp (any stable sorting algorithm produces the same list; insertion
sort keeps the embedding kernel-computable). -/
def sortByTs (l : List Bucket) : List Bucket := l.foldr insertByTs []

/-- The inner loop of `rollUp`: add each expired bucket's count into the
destination bucket at its timestamp rounded to the destination duration. -/
def rollInto (dest : List Bucket) (expired : List Bucket) (destDur : Int) : List Bucket :=
  expired.foldl (fun d x => bumpBucket d (getBucketTs x.ts destDur) x.count) dest

/-- `rollUp(src, dest, srcTier, destTier)` from `_aggregate`: returns the
new `(src, dest)` pair — source filtered to fresh buckets and sorted,
destination extended by the expired counts. -/
def rollUp (src dest : List Bucket) (cutoff destDur : Int) : List Bucket × List Bucket :=
  (sortByTs (src.filter (fun x => cutoff ≤ x.ts)),
   rollInto dest (src.filter (fun x => x.ts < cutoff)) destDur)

/-- The three tiers of one counter. -/
structure Buckets where
  minute : List Bucket
  hour : List Bucket
  day : List Bucket
  deriving Repr, DecidableEq

/-- `_aggregate(buckets, now)`: minute→hour roll-up (retention 60 min),
hour→day roll-up (retention 24 h) on the already-updated hour tier, then
pruning of day buckets older than 30 days. -/
def aggregateBuckets (b : Buckets) (now : Int) : Buckets :=
  let r1 := rollUp b.minute b.hour (now - 60 * MINUTE) HOUR
  let r2 := rollUp r1.2 b.day (now - 24 * HOUR) DAY
  { minute := r1.1
    hour := r2.1
    day := sortByTs (r2.2.filter (fun x => now - 30 * DAY ≤ x.ts)) }

/-- `increment` at the bucket level: land `amount` in the current minute
bucket, then aggregate. -/
def incrementBuckets (b : Buckets) (now amount : Int) : Buckets :=
  aggregateBuckets { b with minute := bumpBucket b.minute (getBucketTs now MINUTE) amount } now

/-- Association-list read with default (`this.data[key] ??= ...` reads). -/
def findOrD {α : Type _} (l : List (String × α)) (k : String) (d : α) : α :=
  ((l.find? (fun f => f.1 = k)).map (·.2)).getD d

/-- Association-list write: update the first binding or append. -/
def setAssoc {α : Type _} : List (String × α) → String → α → List (String × α)
  | [], k, v => [(k, v)]
  | (k0, v0) :: rest, k, v =>
      if k0 = k then (k0, v) :: rest else (k0, v0) :: setAssoc rest k v

/-- The counter's persisted `data` object: key → counter-name → buckets. -/
def CounterData := List (String × List (String × Buckets))

/-- `TimeBucketCounter.increment(key, counter, amount)` at time `now`. -/
def tbcIncrement (data : CounterData) (key counter : String) (now amount : Int) :
    CounterData :=
  let entry := findOrD data key []
  let buckets := findOrD entry counter ⟨[], [], []⟩
  setAssoc data key (setAssoc entry counter (incrementBuckets buckets now amount))

/-- The total count stored at timestamp `t` in a bucket list. -/
def countAt (l : List Bucket) (t : Int) : Int :=
  ((l.filter (fun x => x.ts = t)).map (·.count)).sum

/-- The total count of buckets expired w.r.t. `cutoff` whose timestamp
rounds (by `dur`) to `t`. -/
def expiredSum (src : List Bucket) (cutoff dur t : Int) : Int :=
  ((src.filter (fun x => x.ts < cutoff && getBucketTs x.ts dur = t)).map (·.count)).sum

/-- The minute tier right after the write, before aggregation. -/
def minuteAfterWrite (b : Buckets) (now amount : Int) : List Bucket :=
  bumpBucket b.minute (getBucketTs now MINUTE) amount

/-- The hour tier after the minute→hour roll-up. -/
def hourAfterRoll (b : Buckets) (now amount : Int) : List Bucket :=
  rollInto b.hour ((minuteAfterWrite b now amount).filter
    (fun x => x.ts < now - 60 * MINUTE)) HOUR

/-- The day tier after the hour→day roll-up. -/
def dayAfterRoll (b : Buckets) (now amount : Int) : List Bucket :=
  rollInto b.day ((hourAfterRoll b now amount).filter
    (fun x => x.ts < now - 24 * HOUR)) DAY

lemma incrementBuckets_eq (b : Buckets) (now amount : Int) :
    incrementBuckets b now amount =
      { minute := sortByTs ((minuteAfterWrite b now amount).filter
          (fun x => now - 60 * MINUTE ≤ x.ts))
        hour := sortByTs ((hourAfterRoll b now amount).filter
          (fun x => now - 24 * HOUR ≤ x.ts))
        day := sortByTs ((dayAfterRoll b now amount).filter
          (fun x => now - 30 * DAY ≤ x.ts)) } := rfl

lemma countAt_cons (x : Bucket) (l : List Bucket) (t : Int) :
    countAt (x :: l) t = (if x.ts = t then x.count else 0) + countAt l t := by
  by_cases h : x.ts = t <;> simp [countAt, List.filter_cons, h]

lemma bumpBucket_countAt (l : List Bucket) (ts amount t : Int) :
    countAt (bumpBucket l ts amount) t =
      countAt l t + (if t = ts then amount else 0) := by
  induction l with
  | nil =>
      by_cases h : ts = t
      · simp [bumpBucket, countAt, h]
      · have h2 : ¬ t = ts := fun he => h he.symm
        simp [bumpBucket, countAt, h, h2]
  | cons x rest ih =>
      by_cases hx : x.ts = ts
      · rw [bumpBucket, if_pos hx]
        by_cases ht : x.ts = t
        · have : t = ts := by omega
          simp [countAt_cons, ht, this]
          omega
        · have : ¬ t = ts := by omega
          simp [countAt_cons, ht, this]
      · rw [bumpBucket, if_neg hx]
        rw [countAt_cons, countAt_cons, ih]
        omega

lemma rollInto_countAt (expired : List Bucket) (dest : List Bucket) (dur t : Int) :
    countAt (rollInto dest expired dur) t =
      countAt dest t +
        ((expired.filter (fun x => getBucketTs x.ts dur = t)).map (·.count)).sum := by
  induction expired generalizing dest with
  | nil => simp [rollInto]
  | cons x rest ih =>
      rw [rollInto, List.foldl_cons, List.filter_cons]
      by_cases hx : getBucketTs x.ts dur = t
      · rw [if_pos (by simpa using hx)]
        have := ih (bumpBucket dest (getBucketTs x.ts dur) x.count)
        rw [show List.foldl (fun d x => bumpBucket d (getBucketTs x.ts dur) x.count)
            (bumpBucket dest (getBucketTs x.ts dur) x.count) rest =
            rollInto (bumpBucket dest (getBucketTs x.ts dur) x.count) rest dur from rfl,
          this, bumpBucket_countAt]
        simp [hx]
        omega
      · rw [if_neg (by simpa using hx)]
        have := ih (bumpBucket dest (getBucketTs x.ts dur) x.count)
        rw [show List.foldl (fun d x => bumpBucket d (getBucketTs x.ts dur) x.count)
            (bumpBucket dest (getBucketTs x.ts dur) x.count) rest =
            rollInto (bumpBucket dest (getBucketTs x.ts dur) x.count) rest dur from rfl,
          this, bumpBucket_countAt]
        have hne : ¬ t = getBucketTs x.ts dur := fun he => hx he.symm
        simp [hne]

lemma countAt_insertByTs (x : Bucket) (l : List Bucket) (t : Int) :
    countAt (insertByTs x l) t = countAt (x :: l) t := by
  induction l with
  | nil => simp [insertByTs]
  | cons y rest ih =>
      rw [insertByTs]
      by_cases h : x.ts < y.ts
      · rw [if_pos h]
      · rw [if_neg h, countAt_cons, ih, countAt_cons, countAt_cons, countAt_cons]
        omega

lemma mem_insertByTs (x z : Bucket) (l : List Bucket) :
    z ∈ insertByTs x l ↔ z ∈ x :: l := by
  induction l with
  | nil => simp [insertByTs]
  | cons y rest ih =>
      rw [insertByTs]
      by_cases h : x.ts < y.ts
      · rw [if_pos h]
      · rw [if_neg h]
        simp only [List.mem_cons, ih, List.mem_cons]
        tauto

lemma mem_sortByTs (z : Bucket) (l : List Bucket) : z ∈ sortByTs l ↔ z ∈ l := by
  induction l with
  | nil => simp [sortByTs]
  | cons y rest ih =>
      show z ∈ insertByTs y (sortByTs rest) ↔ _
      rw [mem_insertByTs]
      simp [ih]

lemma countAt_sortByTs (l : List Bucket) (t : Int) :
    countAt (sortByTs l) t = countAt l t := by
  induction l with
  | nil => rfl
  | cons y rest ih =>
      show countAt (insertByTs y (sortByTs rest)) t = _
      rw [countAt_insertByTs, countAt_cons, ih, countAt_cons]

lemma countAt_filter_ge (l : List Bucket) (cutoff t : Int) :
    countAt (l.filter (fun x => cutoff ≤ x.ts)) t =
      if cutoff ≤ t then countAt l t else 0 := by
  induction l with
  | nil => simp [countAt]
  | cons x rest ih =>
      rw [List.filter_cons]
      by_cases hx : cutoff ≤ x.ts <;> by_cases ht : x.ts = t
      · subst ht
        rw [if_pos (by simpa using hx), countAt_cons, countAt_cons, ih,
          if_pos hx, if_pos hx]
      · rw [if_pos (by simpa using hx), countAt_cons, countAt_cons, ih,
          if_neg ht]
        split <;> omega
      · subst ht
        rw [if_neg (by simpa using hx), countAt_cons, ih, if_neg hx, if_neg hx]
      · rw [if_neg (by simpa using hx), countAt_cons, ih, if_neg ht]
        split <;> omega

lemma rollInto_filter_countAt (src dest : List Bucket) (cutoff dur t : Int) :
    countAt (rollInto dest (src.filter (fun x => x.ts < cutoff)) dur) t =
      countAt dest t + expiredSum src cutoff dur t := by
  rw [rollInto_countAt, List.filter_filter]
  have hco : List.filter
      (fun a => decide (getBucketTs a.ts dur = t) && decide (a.ts < cutoff)) src =
      List.filter
      (fun x => decide (x.ts < cutoff) && decide (getBucketTs x.ts dur = t)) src :=
    List.filter_congr (fun a _ => Bool.and_comm _ _)
  rw [hco]
  rfl

lemma mem_sorted_fresh (l : List Bucket) (cutoff : Int) (x : Bucket)
    (hx : x ∈ sortByTs (l.filter (fun y => cutoff ≤ y.ts))) : ¬ x.ts < cutoff := by
  have hx2 : x ∈ l.filter (fun y => cutoff ≤ y.ts) :=
    (mem_sortByTs x _).mp hx
  have h := (List.mem_filter.mp hx2).2
  simp at h
  omega

/-- C7: after every increment at time `now`, (a) no minute bucket older
than 60 minutes remains, and each expired minute bucket's count has been
added to the hour bucket at `floor(ts/HOUR)*HOUR`; (b) hour buckets older
than 24 hours have likewise been rolled into day buckets at
`floor(ts/DAY)*DAY`; (c) day buckets older than 30 days are dropped.  The
count equations characterize every timestamp of the affected tiers. -/
theorem increment_bucket_rollup (b : Buckets) (now amount : Int) :
    (∀ x ∈ (incrementBuckets b now amount).minute, ¬ x.ts < now - 60 * MINUTE) ∧
    (∀ t : Int, countAt (hourAfterRoll b now amount) t =
      countAt b.hour t +
        expiredSum (minuteAfterWrite b now amount) (now - 60 * MINUTE) HOUR t) ∧
    (∀ x ∈ (incrementBuckets b now amount).hour, ¬ x.ts < now - 24 * HOUR) ∧
    (∀ t : Int, countAt (dayAfterRoll b now amount) t =
      countAt b.day t +
        expiredSum (hourAfterRoll b now amount) (now - 24 * HOUR) DAY t) ∧
    (∀ x ∈ (incrementBuckets b now amount).day, ¬ x.ts < now - 30 * DAY) ∧
    (∀ t : Int, countAt (incrementBuckets b now amount).minute t =
      if now - 60 * MINUTE ≤ t then countAt (minuteAfterWrite b now amount) t else 0) ∧
    (∀ t : Int, countAt (incrementBuckets b now amount).hour t =
      if now - 24 * HOUR ≤ t then countAt (hourAfterRoll b now amount) t else 0) ∧
    (∀ t : Int, countAt (incrementBuckets b now amount).day t =
      if now - 30 * DAY ≤ t then countAt (dayAfterRoll b now amount) t else 0) := by
  refine ⟨?_, ?_, ?_, ?_, ?_, ?_, ?_, ?_⟩
  · intro x hx
    exact mem_sorted_fresh (minuteAfterWrite b now amount) (now - 60 * MINUTE) x hx
  · intro t
    exact rollInto_filter_countAt (minuteAfterWrite b now amount) b.hour
      (now - 60 * MINUTE) HOUR t
  · intro x hx
    exact mem_sorted_fresh (hourAfterRoll b now amount) (now - 24 * HOUR) x hx
  · intro t
    exact rollInto_filter_countAt (hourAfterRoll b now amount) b.day
      (now - 24 * HOUR) DAY t
  · intro x hx
    exact mem_sorted_fresh (dayAfterRoll b now amount) (now - 30 * DAY) x hx
  · intro t
    show countAt (sortByTs ((minuteAfterWrite b now amount).filter
      (fun x => now - 60 * MINUTE ≤ x.ts))) t = _
    rw [countAt_sortByTs, countAt_filter_ge]
  · intro t
    show countAt (sortByTs ((hourAfterRoll b now amount).filter
      (fun x => now - 24 * HOUR ≤ x.ts))) t = _
    rw [countAt_sortByTs, countAt_filter_ge]
  · intro t
    show countAt (sortByTs ((dayAfterRoll b now amount).filter
      (fun x => now - 30 * DAY ≤ x.ts))) t = _
    rw [countAt_sortByTs, countAt_filter_ge]

/-- C7 witness: a minute bucket at ts 0 with count 3, incremented at
t = 61 min: the count moved to the hour bucket at ts 0 and the fresh
minute bucket survives the cutoff. -/
theorem increment_bucket_rollup_witness :
    countAt (hourAfterRoll ⟨[⟨0, 3⟩], [], []⟩ (61 * MINUTE) 1) 0 = 3 ∧
    ¬ ((⟨61 * MINUTE, 1⟩ : Bucket).ts < 61 * MINUTE - 60 * MINUTE) := by
  obtain ⟨h1, h2, _, _, _, _, _, _⟩ :=
    increment_bucket_rollup ⟨[⟨0, 3⟩], [], []⟩ (61 * MINUTE) 1
  constructor
  · rw [h2 0]
    decide
  · exact h1 ⟨61 * MINUTE, 1⟩ (by decide)

/-! ## Template renderer
(`src/modules/orchestrator/templates.js`, `renderTemplate` /
`getNestedProperty`) -/

mutual

/-- JS `String(value)` for the values the renderer can substitute
(arrays join their elements with commas, `null`/`undefined` elements
becoming empty; plain objects print as `[object Object]`). -/
def jsToString : JVal → String
  | .jstr s => s
  | .jnum n => toString n
  | .jbool b => cond b "true" "false"
  | .jnull => "null"
  | .jundefined => "undefined"
  | .jobj _ => "[object Object]"
  | .jarr es => String.intercalate "," (jsArrStrings es)

/-- Elements of `Array.prototype.toString`/`join`. -/
def jsArrStrings : List JVal → List String
  | [] => []
  | e :: rest =>
      (match e with
        | .jnull => ""
        | .jundefined => ""
        | e => jsToString e) :: jsArrStrings rest

end

/-- The whitespace removed by `String.prototype.trim` (the code points the
templates can contain; exotic Unicode space classes are not modelled). -/
def isJsSpace (c : Char) : Bool :=
  c = ' ' || c = '\t' || c = '\n' || c = '\r' || c = '\x0b' || c = '\x0c'

/-- `key.trim()`. -/
def trimStr (s : String) : String :=
  String.mk (((s.data.dropWhile isJsSpace).reverse.dropWhile isJsSpace).reverse)

/-- `path.split('.')` on the character list (JS splits on every dot and
keeps empty pieces; the empty path gives one empty piece). -/
def splitOnDot : List Char → List (List Char)
  | [] => [[]]
  | c :: rest =>
      match splitOnDot rest with
      | [] => [[]]
      | w :: ws => if c = '.' then [] :: w :: ws else (c :: w) :: ws

/-- The canonical array-index property keys of JavaScript: a digit run
with no superfluous leading zero (`"0"`, `"10"`; `"00"` and `"-0"` are
ordinary, absent keys). -/
def canonIndex? (s : List Char) : Option Nat :=
  if s.all (fun c => c.isDigit) && !s.isEmpty && ((s == ['0']) || !(s.head? == some '0'))
  then some (s.foldl (fun n c => n * 10 + (c.toNat - 48)) 0)
  else none

/-- One `current?.[prop]` step of `getNestedProperty`: own properties of
objects, element-at-canonical-index and `length` of arrays; `undefined` on
`null`/`undefined` receivers and on primitives.  Prototype-chain and
host-object properties (string `length`, array methods) are not
modelled. -/
def stepAccess (current : JVal) (prop : List Char) : JVal :=
  match current with
  | .jobj fields =>
      match fields.find? (fun f => f.1 = String.mk prop) with
      | some f => f.2
      | none => .jundefined
  | .jarr elems =>
      if String.mk prop = "length" then .jnum elems.length
      else
        match canonIndex? prop with
        | some i => (elems.get? i).getD .jundefined
        | none => .jundefined
  | _ => .jundefined

/-- `getNestedProperty(obj, path)`: `path.split('.').reduce((cur, p) =>
cur?.[p], obj)`. -/
def getNestedProperty (obj : JVal) (path : String) : JVal :=
  (splitOnDot path.data).foldl stepAccess obj

/-- One attempt of the variable regex `\x7b\x7b([^#/\x7d][^\x7d]*)\x7d\x7d`
right after an opening `\x7b\x7b`: the key is one character not in
`#/\x7d` followed by the maximal run of non-`\x7d` characters, and the
match succeeds only if two closing braces follow immediately (the greedy
`[^\x7d]*` cannot backtrack into a successful shorter match because every
shorter split leaves a non-`\x7d` character where `\x7d\x7d` is
required). -/
def parseVarKey : List Char → Option (List Char × List Char)
  | [] => none
  | c :: rest =>
      if c = '#' || c = '/' || c = '\x7d' then none
      else
        let run := rest.takeWhile (fun x => x ≠ '\x7d')
        match rest.drop run.length with
        | '\x7d' :: '\x7d' :: tail => some (c :: run, tail)
        | _ => none

lemma parseVarKey_some_length (l k r : List Char) (h : parseVarKey l = some (k, r)) :
    r.length < l.length := by
  unfold parseVarKey at h
  match l with
  | [] => simp at h
  | c :: rest =>
      simp only at h
      split at h
      · simp at h
      · split at h
        · rename_i tail heq
          have hlen : (rest.drop (rest.takeWhile (fun x => x ≠ '\x7d')).length).length ≤
              rest.length := by
            simp [List.length_drop]
          rw [heq] at hlen
          simp at hlen
          simp at h
          obtain ⟨hk, hr⟩ := h
          subst hr
          simp
          omega
        · simp at h

/-- The second `replace` pass of `renderTemplate`: scan left to right; at
every `\x7b\x7b` try the variable regex; on a match emit `String(value)`
when the (trimmed, dot-resolved) lookup is defined and the match text
itself otherwise, then continue after the match; on a failed attempt emit
one character and rescan (the regex engine advances by one). -/
def renderVars (ctx : JVal) : List Char → List Char
  | [] => []
  | '\x7b' :: '\x7b' :: rest =>
      (match h : parseVarKey rest with
       | some (key, rest2) =>
           (let value := getNestedProperty ctx (trimStr (String.mk key))
            if value.isUndef then '\x7b' :: '\x7b' :: (key ++ ['\x7d', '\x7d'])
            else (jsToString value).data) ++ renderVars ctx rest2
       | none => '\x7b' :: renderVars ctx ('\x7b' :: rest))
  | c :: rest => c :: renderVars ctx rest
  termination_by l => l.length
  decreasing_by
  all_goals simp_wf
  all_goals try omega
  all_goals (have hlv := parseVarKey_some_length _ _ _ h; omega)

/-- The shortest-content search of the lazy `([\s\S]*?)` followed by the
back-referenced close tag: split the list at the first occurrence of the
close tag, returning the content before it and the remainder after it. -/
def splitAtCloseTag (tag : List Char) : List Char → Option (List Char × List Char)
  | [] => none
  | c :: rest =>
      if tag.isPrefixOf (c :: rest) then some ([], (c :: rest).drop tag.length)
      else
        match splitAtCloseTag tag rest with
        | some (content, after) => some (c :: content, after)
        | none => none

lemma length_le_of_isPrefixOf : ∀ (l1 l2 : List Char), l1.isPrefixOf l2 = true →
    l1.length ≤ l2.length := by
  intro l1
  induction l1 with
  | nil => intro l2 _; simp
  | cons c rest ih =>
      intro l2 h
      match l2 with
      | [] => simp [List.isPrefixOf] at h
      | d :: l2t =>
          simp only [List.isPrefixOf, Bool.and_eq_true] at h
          have := ih l2t h.2
          simp
          omega

lemma splitAtCloseTag_length : ∀ (l : List Char) (tag content after : List Char),
    splitAtCloseTag tag l = some (content, after) →
    content.length + tag.length + after.length = l.length := by
  intro l
  induction l with
  | nil => intro tag content after h; simp [splitAtCloseTag] at h
  | cons c rest ih =>
      intro tag content after h
      rw [splitAtCloseTag] at h
      split at h
      · rename_i hpre
        simp only [Option.some.injEq, Prod.mk.injEq] at h
        obtain ⟨hc, ha⟩ := h
        subst hc
        subst ha
        have := length_le_of_isPrefixOf tag (c :: rest) hpre
        simp only [List.length_drop] at *
        simp at *
        omega
      · split at h
        · rename_i content0 after0 heq
          simp only [Option.some.injEq, Prod.mk.injEq] at h
          obtain ⟨hc, ha⟩ := h
          subst hc
          subst ha
          have := ih tag content0 after0 heq
          simp
          omega
        · simp at h

/-- One attempt of the section regex
`\x7b\x7b#([^\x7d]+)\x7d\x7d([\s\S]*?)\x7b\x7b/\1\x7d\x7d` right after an
opening `\x7b\x7b#`: a nonempty run of non-`\x7d` characters, two closing
braces, then the lazily-shortest content up to the first matching close
tag. -/
def parseSection (rest : List Char) : Option (List Char × List Char × List Char) :=
  let run := rest.takeWhile (fun x => x ≠ '\x7d')
  if run.isEmpty then none
  else
    match rest.drop run.length with
    | '\x7d' :: '\x7d' :: tail =>
        (match splitAtCloseTag ('\x7b' :: '\x7b' :: '/' :: (run ++ ['\x7d', '\x7d'])) tail with
         | some (content, after) => some (run, content, after)
         | none => none)
    | _ => none

lemma parseSection_some_length (rest key content after : List Char)
    (h : parseSection rest = some (key, content, after)) :
    content.length < rest.length ∧ after.length < rest.length := by
  simp only [parseSection] at h
  split at h
  · simp at h
  · split at h
    · rename_i tail heq
      split at h
      · rename_i content0 after0 hsplit
        simp only [Option.some.injEq, Prod.mk.injEq] at h
        obtain ⟨hk, hc, ha⟩ := h
        have h1 := splitAtCloseTag_length tail _ content0 after0 hsplit
        have hlen : (rest.drop (rest.takeWhile (fun x => x ≠ '\x7d')).length).length ≤
            rest.length := by
          simp [List.length_drop]
        rw [heq] at hlen
        have hcl : content0.length = content.length := by rw [hc]
        have hal : after0.length = after.length := by rw [ha]
        simp at hlen h1
        omega
      · simp at h
    · simp at h

/-- The first `replace` pass of `renderTemplate` (conditional sections):
scan left to right; at every `\x7b\x7b#` try the section regex; on a match
emit the recursively rendered content (both passes) when the key's lookup
is truthy and nothing otherwise, then continue after the close tag; on a
failed attempt emit one character and rescan. -/
def renderSections (ctx : JVal) : List Char → List Char
  | [] => []
  | '\x7b' :: '\x7b' :: '#' :: rest =>
      (match h : parseSection rest with
       | some (key, content, after) =>
           (if (getNestedProperty ctx (trimStr (String.mk key))).truthy
            then renderVars ctx (renderSections ctx content)
            else []) ++ renderSections ctx after
       | none => '\x7b' :: renderSections ctx ('\x7b' :: '#' :: rest))
  | c :: rest => c :: renderSections ctx rest
  termination_by l => l.length
  decreasing_by
  all_goals simp_wf
  all_goals try omega
  all_goals (have hls := parseSection_some_length _ _ _ _ h; omega)

/-- `renderTemplate(template, context)` from
`src/modules/orchestrator/templates.js` lines 16-44 (string templates):
the section pass, then the variable pass over its output. -/
def renderTemplate (template : String) (ctx : JVal) : String :=
  String.mk (renderVars ctx (renderSections ctx template.data))

lemma takeWhile_append_stop (l1 l2 : List Char)
    (h1 : ∀ c ∈ l1, c ≠ '\x7d') :
    (l1 ++ '\x7d' :: l2).takeWhile (fun x => x ≠ '\x7d') = l1 := by
  induction l1 with
  | nil => simp [List.takeWhile_cons]
  | cons c rest ih =>
      have hc : c ≠ '\x7d' := h1 c (List.mem_cons_self c rest)
      simp only [List.cons_append, List.takeWhile_cons]
      rw [if_pos (by simpa using hc)]
      rw [ih (fun d hd => h1 d (List.mem_cons_of_mem c hd))]

lemma drop_length_append (l1 l2 : List Char) : (l1 ++ l2).drop l1.length = l2 := by
  induction l1 with
  | nil => simp
  | cons c rest ih => simpa using ih

lemma parseVarKey_full (name : List Char) (hne : name ≠ [])
    (hnb : ∀ c ∈ name, c ≠ '\x7d')
    (hh : ∀ c, name.head? = some c → c ≠ '#' ∧ c ≠ '/') :
    parseVarKey (name ++ ['\x7d', '\x7d']) = some (name, []) := by
  match name, hne with
  | c :: ntail, _ =>
      have hc := hh c rfl
      have hcb : c ≠ '\x7d' := hnb c (List.mem_cons_self c ntail)
      have hrun : (ntail ++ ['\x7d', '\x7d']).takeWhile (fun x => x ≠ '\x7d') = ntail := by
        have := takeWhile_append_stop ntail ['\x7d']
          (fun d hd => hnb d (List.mem_cons_of_mem c hd))
        simpa using this
      show parseVarKey (c :: (ntail ++ ['\x7d', '\x7d'])) = _
      rw [parseVarKey]
      rw [if_neg (by simp [hc.1, hc.2, hcb])]
      simp only [hrun]
      rw [show (ntail ++ ['\x7d', '\x7d']).drop ntail.length = ['\x7d', '\x7d'] from
        drop_length_append ntail ['\x7d', '\x7d']]
      rfl

lemma renderSections_cons_of_not (ctx : JVal) (c : Char) (rest : List Char)
    (h : ¬ ∃ r, c :: rest = '\x7b' :: '\x7b' :: '#' :: r) :
    renderSections ctx (c :: rest) = c :: renderSections ctx rest := by
  rw [renderSections.eq_def]
  split
  · rename_i heq
    exact absurd heq (by simp)
  · rename_i r heq
    exact absurd ⟨r, heq⟩ h
  · rename_i tl hside
    obtain ⟨hc, hr⟩ := List.cons.inj hside
    rw [← hc, ← hr]

lemma renderSections_no_open (ctx : JVal) : ∀ (n : Nat) (l : List Char),
    l.length ≤ n → (∀ c ∈ l, c ≠ '\x7b') → renderSections ctx l = l := by
  intro n
  induction n with
  | zero =>
      intro l hl _
      match l with
      | [] => rw [renderSections.eq_def]
      | c :: r => simp at hl
  | succ n ih =>
      intro l hl hno
      match l with
      | [] => rw [renderSections.eq_def]
      | c :: rest =>
          rw [renderSections_cons_of_not ctx c rest (by
            rintro ⟨r, heq⟩
            have : c = '\x7b' := by
              have := congrArg (fun x => x.head?) heq
              simpa using this
            exact hno c (List.mem_cons_self c rest) this)]
          have : renderSections ctx rest = rest :=
            ih rest (by simp at hl; omega)
              (fun d hd => hno d (List.mem_cons_of_mem c hd))
          rw [this]

lemma renderVars_match (ctx : JVal) (rest key rest2 : List Char)
    (h : parseVarKey rest = some (key, rest2)) :
    renderVars ctx ('\x7b' :: '\x7b' :: rest) =
      (if (getNestedProperty ctx (trimStr (String.mk key))).isUndef
       then '\x7b' :: '\x7b' :: (key ++ ['\x7d', '\x7d'])
       else (jsToString (getNestedProperty ctx (trimStr (String.mk key)))).data) ++
        renderVars ctx rest2 := by
  rw [renderVars.eq_def]
  split
  · rename_i heq
    simp at heq
  · rename_i r heq
    obtain ⟨-, h2⟩ := List.cons.inj heq
    obtain ⟨-, h3⟩ := List.cons.inj h2
    subst h3
    split
    · rename_i key2 rest22 hpk
      rw [h] at hpk
      simp only [Option.some.injEq, Prod.mk.injEq] at hpk
      obtain ⟨hk, hr2⟩ := hpk
      subst hk
      subst hr2
      rfl
    · rename_i hpk
      rw [h] at hpk
      simp at hpk
  · rename_i hside heq
    obtain ⟨hc, h2⟩ := List.cons.inj heq
    exact (hside rest hc.symm h2.symm).elim

lemma renderVars_nil (ctx : JVal) : renderVars ctx [] = [] := by
  rw [renderVars.eq_def]

lemma renderTemplate_var_eval (name : String) (ctx : JVal)
    (hne : name.data ≠ [])
    (hnb : ∀ c ∈ name.data, c ≠ '\x7b' ∧ c ≠ '\x7d')
    (hh : ∀ c, name.data.head? = some c → c ≠ '#' ∧ c ≠ '/') :
    renderTemplate ("\x7b\x7b" ++ name ++ "\x7d\x7d") ctx =
      (if (getNestedProperty ctx (trimStr name)).isUndef
       then "\x7b\x7b" ++ name ++ "\x7d\x7d"
       else jsToString (getNestedProperty ctx (trimStr name))) := by
  obtain ⟨n0, ntail, hcons⟩ : ∃ n0 ntail, name.data = n0 :: ntail := by
    cases hd : name.data with
    | nil => exact absurd hd hne
    | cons a b => exact ⟨a, b, rfl⟩
  have h0 := hnb n0 (by rw [hcons]; exact List.mem_cons_self n0 ntail)
  have h0h := hh n0 (by rw [hcons]; rfl)
  have hdata : ("\x7b\x7b" ++ name ++ "\x7d\x7d").data =
      '\x7b' :: '\x7b' :: (name.data ++ ['\x7d', '\x7d']) := rfl
  have hsect : renderSections ctx ('\x7b' :: '\x7b' :: (name.data ++ ['\x7d', '\x7d'])) =
      '\x7b' :: '\x7b' :: (name.data ++ ['\x7d', '\x7d']) := by
    rw [hcons]
    rw [renderSections_cons_of_not ctx '\x7b' ('\x7b' :: (n0 :: ntail ++ ['\x7d', '\x7d'])) (by
      rintro ⟨r, heq⟩
      obtain ⟨-, heq2⟩ := List.cons.inj heq
      obtain ⟨-, heq3⟩ := List.cons.inj heq2
      obtain ⟨heq4, -⟩ := List.cons.inj heq3
      exact h0h.1 heq4)]
    rw [renderSections_cons_of_not ctx '\x7b' (n0 :: ntail ++ ['\x7d', '\x7d']) (by
      rintro ⟨r, heq⟩
      obtain ⟨-, heq2⟩ := List.cons.inj heq
      obtain ⟨heq3, -⟩ := List.cons.inj heq2
      exact (hnb n0 (by rw [hcons]; exact List.mem_cons_self n0 ntail)).1 heq3)]
    rw [renderSections_no_open ctx (n0 :: ntail ++ ['\x7d', '\x7d']).length
      (n0 :: ntail ++ ['\x7d', '\x7d']) le_rfl (by
        intro d hd
        rcases List.mem_cons.mp hd with hd | hd
        · subst hd; exact h0.1
        · rcases List.mem_append.mp hd with hd | hd
          · exact (hnb d (by rw [hcons]; exact List.mem_cons_of_mem n0 hd)).1
          · rcases List.mem_cons.mp hd with hd | hd
            · subst hd; decide
            · simp at hd; subst hd; decide)]
  have hpk : parseVarKey (name.data ++ ['\x7d', '\x7d']) = some (name.data, []) :=
    parseVarKey_full name.data hne (fun c hc => (hnb c hc).2) hh
  have hvars := renderVars_match ctx (name.data ++ ['\x7d', '\x7d']) name.data [] hpk
  rw [renderVars_nil, List.append_nil] at hvars
  show String.mk (renderVars ctx (renderSections ctx ("\x7b\x7b" ++ name ++ "\x7d\x7d").data)) = _
  rw [hdata, hsect, hvars]
  by_cases hund : (getNestedProperty ctx (trimStr (String.mk name.data))).isUndef = true
  · rw [if_pos hund]
    rw [show trimStr (String.mk name.data) = trimStr name from rfl] at hund
    rw [if_pos hund]
    rfl
  · rw [if_neg hund]
    rw [show trimStr (String.mk name.data) = trimStr name from rfl] at hund
    rw [if_neg hund]

/-- C8 (counterexample): the claim says an undefined `\x7b\x7bname\x7d\x7d`
placeholder renders to the empty string; the code keeps the placeholder
text verbatim (`value !== undefined ? String(value) : match`). -/
theorem renderTemplate_undefined_keeps_match_cex :
    renderTemplate "\x7b\x7bx\x7d\x7d" (.jobj []) = "\x7b\x7bx\x7d\x7d" ∧
    ("\x7b\x7bx\x7d\x7d" : String) ≠ "" := by
  constructor
  · have h := renderTemplate_var_eval "x" (.jobj []) (by decide)
      (by intro c hc; simp at hc; subst hc; exact ⟨by decide, by decide⟩)
      (by intro c hc; simp at hc; subst hc; exact ⟨by decide, by decide⟩)
    rw [show ("\x7b\x7b" ++ "x" ++ "\x7d\x7d" : String) = "\x7b\x7bx\x7d\x7d" from by
      decide] at h
    rw [h, if_pos (by decide)]
  · decide

/-- C8 (amended): rendering a `\x7b\x7bname\x7d\x7d` placeholder (dotted
lookups included, `name` free of braces and not starting with `#` or `/`)
whose trimmed lookup in the context is `undefined` leaves the placeholder
verbatim in the output (not the empty string); a defined lookup renders
`String(value)`. -/
theorem renderTemplate_undefined_var (name : String) (ctx : JVal)
    (hne : name.data ≠ [])
    (hnb : ∀ c ∈ name.data, c ≠ '\x7b' ∧ c ≠ '\x7d')
    (hh : ∀ c, name.data.head? = some c → c ≠ '#' ∧ c ≠ '/') :
    ((getNestedProperty ctx (trimStr name)).isUndef = true →
      renderTemplate ("\x7b\x7b" ++ name ++ "\x7d\x7d") ctx =
        "\x7b\x7b" ++ name ++ "\x7d\x7d") ∧
    ((getNestedProperty ctx (trimStr name)).isUndef = false →
      renderTemplate ("\x7b\x7b" ++ name ++ "\x7d\x7d") ctx =
        jsToString (getNestedProperty ctx (trimStr name))) := by
  have h := renderTemplate_var_eval name ctx hne hnb hh
  constructor
  · intro hu
    rw [h, if_pos hu]
  · intro hu
    rw [h, if_neg (by simp [hu])]

/-- C8 witness: `\x7b\x7buser.name\x7d\x7d` with an empty context renders
to itself, and the dotted array lookup `\x7b\x7ba.0\x7d\x7d` with context
`\x7ba: [5]\x7d` renders the element `"5"`. -/
theorem renderTemplate_undefined_var_witness :
    renderTemplate "\x7b\x7buser.name\x7d\x7d" (.jobj []) =
      "\x7b\x7buser.name\x7d\x7d" ∧
    renderTemplate "\x7b\x7ba.0\x7d\x7d" (.jobj [("a", .jarr [.jnum 5])]) = "5" := by
  constructor
  · have h := (renderTemplate_undefined_var "user.name" (.jobj [])
      (by decide)
      (by intro c hc; fin_cases hc <;> exact ⟨by decide, by decide⟩)
      (by intro c hc; simp at hc; subst hc; exact ⟨by decide, by decide⟩)).1 (by decide)
    rw [show ("\x7b\x7b" ++ "user.name" ++ "\x7d\x7d" : String) =
      "\x7b\x7buser.name\x7d\x7d" from by decide] at h
    exact h
  · have h := (renderTemplate_undefined_var "a.0" (.jobj [("a", .jarr [.jnum 5])])
      (by decide)
      (by intro c hc; fin_cases hc <;> exact ⟨by decide, by decide⟩)
      (by intro c hc; simp at hc; subst hc; exact ⟨by decide, by decide⟩)).2 (by decide)
    rw [show ("\x7b\x7b" ++ "a.0" ++ "\x7d\x7d" : String) =
      "\x7b\x7ba.0\x7d\x7d" from by decide] at h
    rw [h]
    decide

/-! ## The multi-turn loop
(`src/modules/executor.js` lines 138-283 and the serial variant bundled in
`src/modules/time-bucket-counter.js` lines 443-525) -/

/-- A conversation message.  The constructors mirror the exact object
shapes the source pushes: plain role/content messages, an assistant
message carrying `tool_calls` (content `null`), and a tool response
(whose content is `undefined` when `JSON.stringify` of an `undefined`
action result yields no string). -/
inductive Message : Type where
  | system (content : String)
  | user (content : String)
  | assistantText (content : String)
  | assistantCalls (tool_calls : List ToolCall)
  | tool (tool_call_id : String) (content : Option String)
  deriving Repr

/-- `m.role === 'user'`. -/
def Message.isUser : Message → Bool
  | .user _ => true
  | _ => false

/-- The raw `function.arguments` string represented by an `ArgSrc` (used
only when serializing a conversation). -/
def argRaw : ArgSrc → String
  | .parses v => (jsonStringify v).getD "undefined"
  | .malformed raw => raw

def toolCallToJVal (tc : ToolCall) : JVal :=
  .jobj [("id", .jstr tc.id), ("type", .jstr "function"),
         ("function", .jobj [("name", .jstr tc.name), ("arguments", .jstr (argRaw tc.args))])]

def messageToJVal : Message → JVal
  | .system c => .jobj [("role", .jstr "system"), ("content", .jstr c)]
  | .user c => .jobj [("role", .jstr "user"), ("content", .jstr c)]
  | .assistantText c => .jobj [("role", .jstr "assistant"), ("content", .jstr c)]
  | .assistantCalls tcs =>
      .jobj [("role", .jstr "assistant"), ("content", .jnull),
             ("tool_calls", .jarr (tcs.map toolCallToJVal))]
  | .tool id c =>
      .jobj [("role", .jstr "tool"), ("tool_call_id", .jstr id),
             ("content", match c with | some s => .jstr s | none => .jundefined)]

/-- `JSON.stringify(conversation, null, 2)`. -/
def serializeConversation (conv : List Message) : String :=
  (jsonStringify2 (.jarr (conv.map messageToJVal))).getD "undefined"

/-- The synthetic browser-state message. -/
def browserMsg (bs : String) : Message :=
  .user ("Current Browser State:\n" ++ bs)

/-- First index satisfying a predicate (the backwards scans of both
sources run this on the reversed conversation). -/
def findIdxAux (p : Message → Bool) : List Message → Option Nat
  | [] => none
  | m :: rest => if p m then some 0 else (findIdxAux p rest).map (fun i => i + 1)

/-- `conversation.findLastIndex(m => m.role === 'user')` (`none` for -1). -/
def findLastUserIdx (conv : List Message) : Option Nat :=
  (findIdxAux Message.isUser conv.reverse).map (fun i => conv.length - 1 - i)

/-- `insertBrowserState` from `src/modules/executor.js` lines 276-283:
shallow-copy the conversation and splice the browser message in before the
last user message when its index is positive, else push it at the end. -/
def insertBrowserState (bs : String) (conv : List Message) : List Message :=
  match findLastUserIdx conv with
  | some i => if 0 < i then conv.insertIdx i (browserMsg bs) else conv ++ [browserMsg bs]
  | none => conv ++ [browserMsg bs]

/-- `insertBrowserStateMessage` from `src/modules/orchestrator/executor.js`
lines 343-366: the same placement computed with an explicit backwards scan
for the last user message. -/
def insertBrowserStateMessage (bs : String) (conv : List Message) : List Message :=
  match findIdxAux Message.isUser conv.reverse with
  | some i =>
      if 0 < conv.length - 1 - i then conv.insertIdx (conv.length - 1 - i) (browserMsg bs)
      else conv ++ [browserMsg bs]
  | none => conv ++ [browserMsg bs]

/-- `k in source` (the JS `in` operator): own keys of objects, indices and
`length` of arrays; throws a `TypeError` on primitives. -/
def jsHasProp (source : JVal) (k : String) : Except String Bool :=
  match source with
  | .jobj fields => .ok (fields.any (fun f => f.1 = k))
  | .jarr elems =>
      .ok (match k.toNat? with
        | some i => decide (i < elems.length)
        | none => k = "length")
  | _ => .error "TypeError: Cannot use 'in' operator to search for a property in a primitive"

/-- `source[k]` for a value that passed `jsHasProp`. -/
def jsGetProp (source : JVal) (k : String) : JVal :=
  match source with
  | .jobj _ => source.getField k
  | .jarr elems =>
      (match k.toNat? with
        | some i => (elems.get? i).getD .jundefined
        | none => if k = "length" then .jnum elems.length else .jundefined)
  | _ => .jundefined

def pickParamsGo (source : JVal) : List String → Except String Params
  | [] => .ok []
  | k :: rest =>
      match jsHasProp source k with
      | .error e => .error e
      | .ok true =>
          (pickParamsGo source rest).map (fun ps => (k, jsGetProp source k) :: ps)
      | .ok false => pickParamsGo source rest

/-- `pickParams` from `src/modules/executor.js` lines 269-274: keep only
the keys declared in the action's `input_schema.properties` (in schema
order); an action without a schema gets `\x7b\x7d` without touching the
source object — so a primitive `source` only throws when at least one key
is probed. -/
def pickParams (source : JVal) (actionDef : ActionDef) : Except String Params :=
  match actionDef.input_schema with
  | none => .ok []
  | some schema => pickParamsGo source (schema.properties.map (fun f => f.1))

/-- `obj[k] = v` on a parameter object: overwrite in place or append. -/
def setProp (ps : Params) (k : String) (v : JVal) : Params :=
  if ps.any (fun f => f.1 = k) then ps.map (fun f => if f.1 = k then (k, v) else f)
  else ps ++ [(k, v)]

/-- The outcome of one `executeAction` call as observed by the loop: a
result, a Validation error (`isValidationError` with its list), or any
other thrown error (timeouts included). -/
inductive ExecOutcome : Type where
  | ok (v : JVal)
  | vfail (errors : List String)
  | fail (msg : String)
  deriving Repr

/-- The `tool_choice` object of an LLM step. -/
structure MTChoice where
  available_actions : List String
  stop_action : String
  max_iterations : Nat := 5

/-- The loop's external collaborators, as oracles: the registry, the model
(indexed by model-call count, fed the current-turn view), the sub-action
executor (indexed by action-call count), the browser-state bundle per
turn, and `Date.now()` for the synthetic tool-call id. -/
structure MTEnv where
  registry : Registry
  llm : Nat → List Message → Except String GenMsg
  act : Nat → ExecOutcome
  browser : Nat → String
  now : Int

/-- The loop's observable state: the persisted conversation, the number of
model calls, the number of `executeAction` calls, and the log of
`executeAction` invocations `(action name, params)` in order. -/
structure MTState where
  conv : List Message
  mcalls : Nat
  acalls : Nat
  log : List (String × Params)

/-- How a multi-turn invocation ended: the model selected the stop action
and it succeeded; the iteration budget ran out (synthetic stop call); or
an exception escaped the loop. -/
inductive EndKind : Type where
  | stopped
  | exhausted
  | errored
  deriving Repr, DecidableEq

structure MTResult where
  value : Option JVal
  error : Option String
  ended : EndKind
  state : MTState

/-- Compact `JSON.stringify(\x7berror: msg\x7d)`. -/
def errorContentJson (msg : String) : String :=
  (jsonStringify (.jobj [("error", .jstr msg)])).getD ""

/-- Compact `JSON.stringify(\x7berror: 'Validation failed', details\x7d)`. -/
def vfailContent (errs : List String) : String :=
  (jsonStringify (.jobj [("error", .jstr "Validation failed"),
    ("details", .jarr (errs.map JVal.jstr))])).getD ""

/-- The canned response of the iteration-exhaustion path. -/
def unableResponse : String :=
  "I was unable to complete the task within the allowed number of steps. Here is what I accomplished so far."

/-- Conversation trim: `if (conversation.length > 12)
conversation.splice(2, conversation.length - 10)` — keep the system
message, the first user message, and the last 8 messages. -/
def trimConv (st : MTState) : MTState :=
  if st.conv.length > 12 then
    { st with conv := st.conv.take 2 ++ st.conv.drop (st.conv.length - 8) }
  else st

/-- The iteration-exhaustion tail shared by both loop variants (lines
244-266 / 509-524): push a synthetic assistant message calling the stop
action with the canned response, then execute the stop action once with
the canned response plus the serialized conversation, and unwrap; a stop
action missing from the registry makes `executeAction(undefined, ...)`
throw. -/
def finishMT (env : MTEnv) (choice : MTChoice) (st : MTState) : MTResult :=
  let conv2 := st.conv ++ [.assistantCalls [⟨"max-iter-" ++ toString env.now,
    choice.stop_action,
    .parses (.jobj [("response", .jstr unableResponse),
                    ("justification", .jstr "Maximum iterations reached")])⟩]]
  match env.registry choice.stop_action with
  | none =>
      ⟨none, some "TypeError: Cannot read properties of undefined (reading name)",
        .errored, { st with conv := conv2 }⟩
  | some _ =>
      let params : Params := [("response", .jstr unableResponse),
        ("messages", .jstr (serializeConversation conv2))]
      let st2 : MTState :=
        { st with
          conv := conv2
          acalls := st.acalls + 1
          log := st.log ++ [(choice.stop_action, params)] }
      match env.act st.acalls with
      | .ok result => ⟨some (unwrapStopResult result), none, .exhausted, st2⟩
      | .vfail errs => ⟨none, some (String.intercalate ", " errs), .exhausted, st2⟩
      | .fail msg => ⟨none, some msg, .exhausted, st2⟩

/-- What one loop iteration does: continue with a new state, or leave the
loop with a result. -/
inductive StepOut : Type where
  | cont (st : MTState)
  | halt (r : MTResult)

/-- One iteration of `executeMultiTurn` from `src/modules/executor.js`
lines 146-242.  The model is called on the current-turn view
(`insertBrowserState` of the persisted conversation).  Only the first
tool call of the response is processed: its arguments are parsed (a parse
failure appends an orphan tool message and rescans), then the assistant
message is pushed, the action is resolved and executed, and the result or
error becomes the paired tool message; a successful stop action returns
its unwrapped result at once.  The trim runs only on the paths that did
not `continue`. -/
def mtStep (env : MTEnv) (choice : MTChoice) (st : MTState) : StepOut :=
  match env.llm st.mcalls (insertBrowserState (env.browser st.mcalls) st.conv) with
  | .error e => .halt ⟨none, some e, .errored, { st with mcalls := st.mcalls + 1 }⟩
  | .ok resp =>
      let st1 : MTState := { st with mcalls := st.mcalls + 1 }
      match resp.tool_calls with
      | [] =>
          .cont { st1 with conv := st1.conv ++
            [.assistantText ((resp.content.filter (fun s => s ≠ "")).getD
                "I need to use a tool to help with this."),
             .user "Please call one of the available tools to proceed."] }
      | toolCall :: _ =>
          match toolCall.args with
          | .malformed _ =>
              .cont { st1 with conv := st1.conv ++
                [.tool toolCall.id (some (errorContentJson "Invalid JSON in tool arguments"))] }
          | .parses toolArgs =>
              let st2 : MTState := { st1 with conv := st1.conv ++ [.assistantCalls resp.tool_calls] }
              match env.registry toolCall.name with
              | none =>
                  .cont { st2 with conv := st2.conv ++
                    [.tool toolCall.id (some (errorContentJson ("Action not found: " ++ toolCall.name)))] }
              | some targetAction =>
                  match pickParams toolArgs targetAction with
                  | .error e => .halt ⟨none, some e, .errored, st2⟩
                  | .ok ps =>
                      let actionParams :=
                        if toolCall.name = choice.stop_action then
                          setProp ps "messages" (.jstr (serializeConversation st2.conv))
                        else ps
                      let st3 : MTState :=
                        { st2 with
                          acalls := st2.acalls + 1
                          log := st2.log ++ [(toolCall.name, actionParams)] }
                      match env.act st2.acalls with
                      | .ok result =>
                          if toolCall.name = choice.stop_action then
                            .halt ⟨some (unwrapStopResult result), none, .stopped, st3⟩
                          else
                            .cont (trimConv { st3 with conv := st3.conv ++
                              [.tool toolCall.id (jsonStringify2 result)] })
                      | .vfail errs =>
                          .cont (trimConv { st3 with conv := st3.conv ++
                            [.tool toolCall.id (some (vfailContent errs))] })
                      | .fail msg =>
                          .cont (trimConv { st3 with conv := st3.conv ++
                            [.tool toolCall.id (some (errorContentJson msg))] })

/-- The iteration loop of `executeMultiTurn` (executor.js variant): at
most `n` more turns, then the exhaustion tail. -/
def runMT (env : MTEnv) (choice : MTChoice) : Nat → MTState → MTResult
  | 0, st => finishMT env choice st
  | n + 1, st =>
      match mtStep env choice st with
      | .cont st2 => runMT env choice n st2
      | .halt r => r

/-- `executeMultiTurn` from `src/modules/executor.js` lines 138-267. -/
def executeMultiTurn (env : MTEnv) (systemPrompt initialMessage : String)
    (choice : MTChoice) : MTResult :=
  runMT env choice choice.max_iterations
    ⟨[.system systemPrompt, .user initialMessage], 0, 0, []⟩

/-- The outcome of one tool-call burst in the serial variant. -/
inductive BurstOut : Type where
  | next (st : MTState)
  | stopRet (v : JVal) (st : MTState)
  | crash (msg : String) (st : MTState)

/-- Project the state out of a burst outcome. -/
def BurstOut.state : BurstOut → MTState
  | .next st => st
  | .stopRet _ st => st
  | .crash _ st => st

/-- The per-burst inner loop of the serial `executeMultiTurn` variant
(`src/modules/time-bucket-counter.js` lines 470-504): execute the tool
calls serially in the model's order; malformed arguments, an unknown
action, or an execution error append the error as the call's tool response
and `break`; a successful non-stop call appends its result as the tool
response (compact `JSON.stringify`) and continues; a successful stop
action returns its unwrapped result. -/
def execToolCalls (env : MTEnv) (stopAction : String) :
    List ToolCall → MTState → BurstOut
  | [], st => .next st
  | tc :: rest, st =>
      match tc.args with
      | .malformed _ =>
          .next { st with conv := st.conv ++
            [.tool tc.id (some (errorContentJson "Invalid JSON in tool arguments"))] }
      | .parses toolArgs =>
          match env.registry tc.name with
          | none =>
              .next { st with conv := st.conv ++
                [.tool tc.id (some (errorContentJson ("Action not found: " ++ tc.name)))] }
          | some targetAction =>
              match pickParams toolArgs targetAction with
              | .error e => .crash e st
              | .ok ps =>
                  let actionParams :=
                    if tc.name = stopAction then
                      setProp ps "messages" (.jstr (serializeConversation st.conv))
                    else ps
                  let st2 : MTState :=
                    { st with
                      acalls := st.acalls + 1
                      log := st.log ++ [(tc.name, actionParams)] }
                  match env.act st.acalls with
                  | .ok result =>
                      if tc.name = stopAction then .stopRet (unwrapStopResult result) st2
                      else
                        execToolCalls env stopAction rest
                          { st2 with conv := st2.conv ++ [.tool tc.id (jsonStringify result)] }
                  | .vfail errs =>
                      .next { st2 with conv := st2.conv ++
                        [.tool tc.id (some (vfailContent errs))] }
                  | .fail msg =>
                      .next { st2 with conv := st2.conv ++
                        [.tool tc.id (some (errorContentJson msg))] }

/-- One iteration of the serial `executeMultiTurn` variant
(`src/modules/time-bucket-counter.js` lines 452-507): unlike the
executor.js variant, the assistant message (with all its `tool_calls`) is
appended before any parsing, and every tool call of the burst is executed
serially. -/
def mtStepSerial (env : MTEnv) (choice : MTChoice) (st : MTState) : StepOut :=
  match env.llm st.mcalls (insertBrowserState (env.browser st.mcalls) st.conv) with
  | .error e => .halt ⟨none, some e, .errored, { st with mcalls := st.mcalls + 1 }⟩
  | .ok resp =>
      let st1 : MTState := { st with mcalls := st.mcalls + 1 }
      match resp.tool_calls with
      | [] =>
          .cont { st1 with conv := st1.conv ++
            [.assistantText ((resp.content.filter (fun s => s ≠ "")).getD
                "I need to use a tool to help with this."),
             .user "Please call one of the available tools to proceed."] }
      | _ :: _ =>
          let st2 : MTState := { st1 with conv := st1.conv ++ [.assistantCalls resp.tool_calls] }
          match execToolCalls env choice.stop_action resp.tool_calls st2 with
          | .next st3 => .cont (trimConv st3)
          | .stopRet v st3 => .halt ⟨some v, none, .stopped, st3⟩
          | .crash e st3 => .halt ⟨none, some e, .errored, st3⟩

/-- The iteration loop of the serial variant. -/
def runMTSerial (env : MTEnv) (choice : MTChoice) : Nat → MTState → MTResult
  | 0, st => finishMT env choice st
  | n + 1, st =>
      match mtStepSerial env choice st with
      | .cont st2 => runMTSerial env choice n st2
      | .halt r => r

/-- The serial `executeMultiTurn` variant
(`src/modules/time-bucket-counter.js` lines 443-525). -/
def executeMultiTurnSerial (env : MTEnv) (systemPrompt initialMessage : String)
    (choice : MTChoice) : MTResult :=
  runMTSerial env choice choice.max_iterations
    ⟨[.system systemPrompt, .user initialMessage], 0, 0, []⟩

lemma trimConv_mcalls (st : MTState) : (trimConv st).mcalls = st.mcalls := by
  unfold trimConv
  split <;> rfl

lemma trimConv_acalls (st : MTState) : (trimConv st).acalls = st.acalls := by
  unfold trimConv
  split <;> rfl

lemma trimConv_log (st : MTState) : (trimConv st).log = st.log := by
  unfold trimConv
  split <;> rfl

lemma mtStep_cont_mcalls (env : MTEnv) (choice : MTChoice) (st st2 : MTState)
    (h : mtStep env choice st = .cont st2) : st2.mcalls = st.mcalls + 1 := by
  unfold mtStep at h
  dsimp only at h
  repeat' split at h
  all_goals cases h
  all_goals simp [trimConv_mcalls]

lemma mtStep_halt_mcalls (env : MTEnv) (choice : MTChoice) (st : MTState)
    (r : MTResult) (h : mtStep env choice st = .halt r) : r.state.mcalls ≤ st.mcalls + 1 := by
  unfold mtStep at h
  dsimp only at h
  repeat' split at h
  all_goals cases h
  all_goals simp

lemma mtStep_halt_not_exhausted (env : MTEnv) (choice : MTChoice) (st : MTState)
    (r : MTResult) (h : mtStep env choice st = .halt r) : r.ended ≠ .exhausted := by
  unfold mtStep at h
  dsimp only at h
  repeat' split at h
  all_goals cases h
  all_goals simp

/-- The synthetic assistant message of the exhaustion path. -/
def syntheticStopMsg (env : MTEnv) (choice : MTChoice) : Message :=
  .assistantCalls [⟨"max-iter-" ++ toString env.now, choice.stop_action,
    .parses (.jobj [("response", .jstr unableResponse),
                    ("justification", .jstr "Maximum iterations reached")])⟩]

lemma finishMT_mcalls (env : MTEnv) (choice : MTChoice) (st : MTState) :
    (finishMT env choice st).state.mcalls = st.mcalls := by
  unfold finishMT
  repeat' split
  all_goals rfl

lemma finishMT_exhausted (env : MTEnv) (choice : MTChoice) (st : MTState)
    (h : (finishMT env choice st).ended = .exhausted) :
    (finishMT env choice st).state.log = st.log ++ [(choice.stop_action,
      [("response", .jstr unableResponse),
       ("messages", .jstr (serializeConversation ((finishMT env choice st).state.conv)))])] ∧
    (finishMT env choice st).state.conv = st.conv ++ [syntheticStopMsg env choice] ∧
    (finishMT env choice st).state.acalls = st.acalls + 1 ∧
    (∀ v, (finishMT env choice st).value = some v →
      ∃ r, env.act st.acalls = .ok r ∧ v = unwrapStopResult r) := by
  unfold finishMT at *
  dsimp only at *
  split at h
  · simp at h
  · split at h <;>
      exact ⟨rfl, rfl, rfl, by
        intro v hv
        first
          | (simp only [Option.some.injEq] at hv
             exact ⟨_, by assumption, hv.symm⟩)
          | simp at hv⟩

lemma runMT_spec (env : MTEnv) (choice : MTChoice) : ∀ (n : Nat) (st : MTState),
    (runMT env choice n st).state.mcalls ≤ st.mcalls + n ∧
    ((runMT env choice n st).ended = .exhausted →
      ∃ stF, runMT env choice n st = finishMT env choice stF) := by
  intro n
  induction n with
  | zero =>
      intro st
      refine ⟨?_, fun _ => ⟨st, rfl⟩⟩
      have h := finishMT_mcalls env choice st
      show (finishMT env choice st).state.mcalls ≤ st.mcalls + 0
      omega
  | succ n ih =>
      intro st
      cases hstep : mtStep env choice st with
      | cont st2 =>
          have h1 := mtStep_cont_mcalls env choice st st2 hstep
          obtain ⟨ih1, ih2⟩ := ih st2
          have hr : runMT env choice (n + 1) st = runMT env choice n st2 := by
            simp [runMT, hstep]
          refine ⟨?_, ?_⟩
          · rw [hr]
            omega
          · intro hex
            rw [hr] at hex ⊢
            exact ih2 hex
      | halt r =>
          have hr : runMT env choice (n + 1) st = r := by
            simp [runMT, hstep]
          refine ⟨?_, ?_⟩
          · rw [hr]
            have := mtStep_halt_mcalls env choice st r hstep
            omega
          · intro hex
            rw [hr] at hex
            exact absurd hex (mtStep_halt_not_exhausted env choice st r hstep)

lemma filter_nil_of_none {α : Type _} (p : α → Bool) (l : List α)
    (h : ∀ a ∈ l, p a = false) : l.filter p = [] := by
  induction l with
  | nil => rfl
  | cons a rest ih =>
      rw [List.filter_cons, if_neg (by simp [h a (List.mem_cons_self a rest)])]
      exact ih (fun b hb => h b (List.mem_cons_of_mem a hb))

/-- C2: the multi-turn loop performs at most `max_iterations` model calls;
when the iteration budget is exhausted it appends one synthetic assistant
message calling the stop action, executes the stop action exactly once
with the canned unable-to-complete response plus the serialized
conversation, and returns that call's unwrapped result. -/
theorem executeMultiTurn_iteration_bound (env : MTEnv) (sp im : String)
    (choice : MTChoice) :
    (executeMultiTurn env sp im choice).state.mcalls ≤ choice.max_iterations ∧
    ((executeMultiTurn env sp im choice).ended = .exhausted →
      ∃ pre convPre,
        (executeMultiTurn env sp im choice).state.log = pre ++ [(choice.stop_action,
          [("response", .jstr unableResponse),
           ("messages", .jstr (serializeConversation
             ((executeMultiTurn env sp im choice).state.conv)))])] ∧
        (executeMultiTurn env sp im choice).state.conv =
          convPre ++ [syntheticStopMsg env choice] ∧
        ((∀ c ∈ pre, c.1 ≠ choice.stop_action) →
          ((executeMultiTurn env sp im choice).state.log.filter
            (fun c => c.1 = choice.stop_action)).length = 1) ∧
        (∀ v, (executeMultiTurn env sp im choice).value = some v →
          ∃ r, env.act ((executeMultiTurn env sp im choice).state.acalls - 1) = .ok r ∧
            v = unwrapStopResult r)) := by
  obtain ⟨h1, h2⟩ := runMT_spec env choice choice.max_iterations
    ⟨[.system sp, .user im], 0, 0, []⟩
  refine ⟨by simpa [executeMultiTurn] using h1, ?_⟩
  intro hex
  obtain ⟨stF, hF⟩ := h2 (by simpa [executeMultiTurn] using hex)
  have hFx : (finishMT env choice stF).ended = .exhausted := by
    rw [← hF]
    simpa [executeMultiTurn] using hex
  obtain ⟨hlog, hconv, hacalls, hval⟩ := finishMT_exhausted env choice stF hFx
  refine ⟨stF.log, stF.conv, ?_, ?_, ?_, ?_⟩
  · show (executeMultiTurn env sp im choice).state.log = _
    rw [show (executeMultiTurn env sp im choice) = finishMT env choice stF from hF, hlog]
  · rw [show (executeMultiTurn env sp im choice) = finishMT env choice stF from hF, hconv]
  · intro hpre
    rw [show (executeMultiTurn env sp im choice) = finishMT env choice stF from hF, hlog]
    rw [List.filter_append, filter_nil_of_none _ stF.log
      (fun c hc => by simpa using hpre c hc)]
    simp
  · intro v hv
    rw [show (executeMultiTurn env sp im choice) = finishMT env choice stF from hF, hacalls]
    have := hval v (by rwa [show (executeMultiTurn env sp im choice) =
      finishMT env choice stF from hF] at hv)
    simpa using this

/-- The stop action used by the loop witnesses. -/
def chatAction : ActionDef :=
  { name := "chat", description := some "Respond to the user",
    input_schema := some { properties := [("response", { type := "string" })],
                           required := ["response"] } }

/-- Registry with a work action and a stop action. -/
def regMT : Registry := fun n =>
  if n = "ping" then some pingAction else if n = "chat" then some chatAction else none

/-- C2 witness environment: the model returns plain text, so one turn is
consumed without a tool call and the budget of 1 is exhausted. -/
def envW2 : MTEnv :=
  { registry := regMT
    llm := fun _ _ => .ok { content := some "hello" }
    act := fun _ => .ok (.jstr "done")
    browser := fun _ => "B"
    now := 0 }

def choiceW2 : MTChoice :=
  { available_actions := ["chat"], stop_action := "chat", max_iterations := 1 }

/-- C2 witness: with `max_iterations = 1` and a model that never calls a
tool, the loop exhausts, the synthetic stop call runs once and its
unwrapped result is returned. -/
theorem executeMultiTurn_iteration_bound_witness :
    ∃ r, envW2.act ((executeMultiTurn envW2 "s" "u" choiceW2).state.acalls - 1) = .ok r ∧
      JVal.jstr "done" = unwrapStopResult r := by
  obtain ⟨pre, convPre, h1, h2, h3, h4⟩ :=
    (executeMultiTurn_iteration_bound envW2 "s" "u" choiceW2).2 rfl
  exact h4 (.jstr "done") rfl

/-- The tool-response messages' ids, in order. -/
def toolIdsOf (conv : List Message) : List String :=
  conv.filterMap (fun m => match m with | .tool id _ => some id | _ => none)

/-- The sizes of the assistant tool-call bursts, in order. -/
def callCounts (conv : List Message) : List Nat :=
  conv.filterMap (fun m => match m with | .assistantCalls tcs => some tcs.length | _ => none)

def c1Call1 : ToolCall := ⟨"call1", "ping", .parses (.jobj [("url", .jstr "a")])⟩

def c1Call2 : ToolCall := ⟨"call2", "ping", .parses (.jobj [("url", .jstr "b")])⟩

def c1Call3 : ToolCall := ⟨"call3", "chat", .parses (.jobj [("response", .jstr "done")])⟩

/-- C1 counterexample environment: the first model turn returns two tool
calls, the second turn selects the stop action; every action call
succeeds. -/
def envC1 : MTEnv :=
  { registry := regMT
    llm := fun i _ =>
      if i = 0 then .ok { tool_calls := [c1Call1, c1Call2] }
      else .ok { tool_calls := [c1Call3] }
    act := fun i => if i = 0 then .ok (.jobj []) else .ok (.jstr "done")
    browser := fun _ => "B"
    now := 0 }

def choiceC1 : MTChoice :=
  { available_actions := ["ping", "chat"], stop_action := "chat", max_iterations := 5 }

/-- C1 (counterexample): in `executeMultiTurn` of `src/modules/executor.js`
a burst of `N = 2` tool calls (no error, no stop action among them) yields
exactly ONE persisted tool message — only `tool_calls[0]` is executed —
although the loop later terminates normally via the stop action.  The
claim's `N` tool messages therefore fail on this variant. -/
theorem executeMultiTurn_first_call_only_cex :
    (executeMultiTurn envC1 "s" "u" choiceC1).ended = .stopped ∧
    callCounts (executeMultiTurn envC1 "s" "u" choiceC1).state.conv = [2, 1] ∧
    toolIdsOf (executeMultiTurn envC1 "s" "u" choiceC1).state.conv = ["call1"] := by
  refine ⟨rfl, rfl, rfl⟩

lemma toolIdsOf_append (a b : List Message) :
    toolIdsOf (a ++ b) = toolIdsOf a ++ toolIdsOf b := by
  unfold toolIdsOf
  exact List.filterMap_append a b _

lemma execToolCalls_cons_ok_nonstop (env : MTEnv) (stopAction : String)
    (tc : ToolCall) (rest : List ToolCall) (st : MTState) (toolArgs : JVal)
    (targetAction : ActionDef) (ps : Params) (result : JVal)
    (harg : tc.args = .parses toolArgs)
    (hreg : env.registry tc.name = some targetAction)
    (hpick : pickParams toolArgs targetAction = .ok ps)
    (hact : env.act st.acalls = .ok result)
    (hstop : tc.name ≠ stopAction) :
    execToolCalls env stopAction (tc :: rest) st =
      execToolCalls env stopAction rest
        { st with
          acalls := st.acalls + 1
          log := st.log ++ [(tc.name, ps)]
          conv := st.conv ++ [.tool tc.id (jsonStringify result)] } := by
  simp only [execToolCalls, harg, hreg, hpick, hact, if_neg hstop]

/-- C1 (amended): in the serial variant the tool calls of one assistant
message are executed serially in the model's order.  (B) Whatever happens,
the tool messages appended by a burst pair, in order, a prefix of the
calls' ids (processing stops early only on malformed arguments, an
unknown action, an execution error, a successful stop action, or a
`pickParams` crash).  (A) When every call parses, resolves, succeeds and
is not the stop action, all `N` calls are executed in order and the
conversation gains exactly `N` tool messages matching the `N`
`tool_call_id`s in order. -/
theorem execToolCalls_serial_pairing (env : MTEnv) (stopAction : String)
    (tcs : List ToolCall) (st : MTState) :
    (∃ j, j ≤ tcs.length ∧
      toolIdsOf (execToolCalls env stopAction tcs st).state.conv =
        toolIdsOf st.conv ++ (tcs.take j).map (fun c => c.id)) ∧
    ((∀ i (hi : i < tcs.length),
        (tcs.get ⟨i, hi⟩).name ≠ stopAction ∧
        (∃ v a ps, (tcs.get ⟨i, hi⟩).args = .parses v ∧
          env.registry (tcs.get ⟨i, hi⟩).name = some a ∧ pickParams v a = .ok ps) ∧
        (∃ r, env.act (st.acalls + i) = .ok r)) →
      ∃ st2, execToolCalls env stopAction tcs st = .next st2 ∧
        toolIdsOf st2.conv = toolIdsOf st.conv ++ tcs.map (fun c => c.id) ∧
        st2.log.map (fun c => c.1) = st.log.map (fun c => c.1) ++ tcs.map (fun c => c.name) ∧
        st2.acalls = st.acalls + tcs.length) := by
  induction tcs generalizing st with
  | nil =>
      refine ⟨⟨0, by simp, by simp [execToolCalls, BurstOut.state]⟩, ?_⟩
      intro _
      exact ⟨st, rfl, by simp, by simp, by simp⟩
  | cons tc rest ih =>
      constructor
      · -- (B) prefix pairing
        cases harg : tc.args with
        | malformed raw =>
            refine ⟨1, by simp, ?_⟩
            simp only [execToolCalls, harg]
            simp [toolIdsOf_append, toolIdsOf, BurstOut.state]
        | parses toolArgs =>
            cases hreg : env.registry tc.name with
            | none =>
                refine ⟨1, by simp, ?_⟩
                simp only [execToolCalls, harg, hreg]
                simp [toolIdsOf_append, toolIdsOf, BurstOut.state]
            | some targetAction =>
                cases hpick : pickParams toolArgs targetAction with
                | error e =>
                    refine ⟨0, by simp, ?_⟩
                    simp only [execToolCalls, harg, hreg, hpick]
                    simp [BurstOut.state]
                | ok ps =>
                    cases hact : env.act st.acalls with
                    | ok result =>
                        by_cases hstop : tc.name = stopAction
                        · refine ⟨0, by simp, ?_⟩
                          simp only [execToolCalls, harg, hreg, hpick, hact]
                          simp [hstop, BurstOut.state]
                        · obtain ⟨⟨j, hj, hids⟩, -⟩ := ih
                            { st with
                              acalls := st.acalls + 1
                              log := st.log ++ [(tc.name, ps)]
                              conv := st.conv ++ [.tool tc.id (jsonStringify result)] }
                          refine ⟨j + 1, by simp; omega, ?_⟩
                          rw [execToolCalls_cons_ok_nonstop env stopAction tc rest st
                            toolArgs targetAction ps result harg hreg hpick hact hstop, hids]
                          simp [toolIdsOf_append, toolIdsOf, List.take_succ_cons]
                    | vfail errs =>
                        refine ⟨1, by simp, ?_⟩
                        simp only [execToolCalls, harg, hreg, hpick, hact]
                        simp [toolIdsOf_append, toolIdsOf, BurstOut.state]
                    | fail msg =>
                        refine ⟨1, by simp, ?_⟩
                        simp only [execToolCalls, harg, hreg, hpick, hact]
                        simp [toolIdsOf_append, toolIdsOf, BurstOut.state]
      · -- (A) all-success serial execution
        intro hall
        obtain ⟨hstop, ⟨v, a, ps, harg, hreg, hpick⟩, ⟨r, hact⟩⟩ := hall 0 (by simp)
        simp only [List.get] at hstop harg hreg hpick hact
        have hact0 : env.act st.acalls = .ok r := by simpa using hact
        obtain ⟨-, ihA⟩ := ih
          { st with
            acalls := st.acalls + 1
            log := st.log ++ [(tc.name, ps)]
            conv := st.conv ++ [.tool tc.id (jsonStringify r)] }
        obtain ⟨st2, hrun, hids, hlog, hacalls⟩ := ihA (by
          intro i hi
          obtain ⟨h1, h2, h3⟩ := hall (i + 1) (by simpa using Nat.succ_lt_succ hi)
          refine ⟨by simpa [List.get] using h1, by simpa [List.get] using h2, ?_⟩
          obtain ⟨r2, hr2⟩ := h3
          exact ⟨r2, by rw [show st.acalls + 1 + i = st.acalls + (i + 1) by omega]; exact hr2⟩)
        refine ⟨st2, ?_, ?_, ?_, ?_⟩
        · rw [execToolCalls_cons_ok_nonstop env stopAction tc rest st
            v a ps r harg hreg hpick hact0 hstop]
          exact hrun
        · rw [hids]
          simp [toolIdsOf_append, toolIdsOf]
        · rw [hlog]
          simp
        · rw [hacalls]
          simp
          omega

/-- C1 witness (serial variant): a burst of two successful non-stop calls
appends exactly the two paired tool messages, in order. -/
theorem execToolCalls_serial_pairing_witness :
    toolIdsOf (execToolCalls envC1 "chat" [c1Call1, c1Call2] ⟨[], 0, 0, []⟩).state.conv =
      ["call1", "call2"] := by
  obtain ⟨st2, hnext, hids, -, -⟩ :=
    (execToolCalls_serial_pairing envC1 "chat" [c1Call1, c1Call2] ⟨[], 0, 0, []⟩).2 (by
      intro i hi
      match i, hi with
      | 0, _ =>
          exact ⟨show "ping" ≠ "chat" by decide,
            ⟨.jobj [("url", .jstr "a")], pingAction, [("url", .jstr "a")], rfl, rfl, rfl⟩,
            ⟨.jobj [], rfl⟩⟩
      | 1, _ =>
          exact ⟨show "ping" ≠ "chat" by decide,
            ⟨.jobj [("url", .jstr "b")], pingAction, [("url", .jstr "b")], rfl, rfl, rfl⟩,
            ⟨.jstr "done", rfl⟩⟩)
  rw [hnext]
  simpa [BurstOut.state, toolIdsOf, c1Call1, c1Call2] using hids

lemma lt_length_of_get?_some {α : Type _} (l : List α) (n : Nat) (a : α)
    (h : l.get? n = some a) : n < l.length := by
  by_contra hc
  push_neg at hc
  rw [List.get?_eq_none.mpr hc] at h
  simp at h

lemma findIdxAux_some_le (p : Message → Bool) :
    ∀ (l : List Message) (k : Nat) (m : Message),
      l.get? k = some m → p m = true → ∃ i, findIdxAux p l = some i ∧ i ≤ k := by
  intro l
  induction l with
  | nil => intro k m hk _; simp at hk
  | cons a tl ih =>
      intro k m hk hp
      by_cases hpa : p a = true
      · exact ⟨0, by simp [findIdxAux, hpa], by omega⟩
      · cases k with
        | zero =>
            simp only [List.get?_cons_zero, Option.some.injEq] at hk
            subst hk
            exact absurd hp hpa
        | succ k =>
            rw [List.get?_cons_succ] at hk
            obtain ⟨i, hi, hik⟩ := ih k m hk hp
            refine ⟨i + 1, ?_, by omega⟩
            simp [findIdxAux, hpa, hi]

lemma findIdxAux_some_spec (p : Message → Bool) :
    ∀ (l : List Message) (i : Nat), findIdxAux p l = some i →
      ∃ m, l.get? i = some m ∧ p m = true := by
  intro l
  induction l with
  | nil => intro i h; simp [findIdxAux] at h
  | cons a tl ih =>
      intro i h
      by_cases hpa : p a = true
      · simp [findIdxAux, hpa] at h
        subst h
        exact ⟨a, rfl, hpa⟩
      · simp [findIdxAux, hpa] at h
        obtain ⟨j, hj, hji⟩ := h
        obtain ⟨m, hm, hpm⟩ := ih j hj
        exact ⟨m, by rw [← hji]; simpa using hm, hpm⟩

lemma findIdxAux_none_spec (p : Message → Bool) :
    ∀ (l : List Message), findIdxAux p l = none → ∀ m ∈ l, p m = false := by
  intro l
  induction l with
  | nil => intro _ m hm; simp at hm
  | cons a tl ih =>
      intro h m hm
      by_cases hpa : p a = true
      · simp [findIdxAux, hpa] at h
      · simp [findIdxAux, hpa] at h
        rcases List.mem_cons.mp hm with hm | hm
        · subst hm
          simpa using hpa
        · exact ih h m hm

lemma get?_reverse_eq {α : Type _} (l : List α) (i : Nat) (h : i < l.length) :
    l.reverse.get? i = l.get? (l.length - 1 - i) := by
  simp [List.get?_eq_getElem?, List.getElem?_reverse, h]

lemma findIdxAux_eq_none (p : Message → Bool) :
    ∀ (l : List Message), (∀ m ∈ l, p m = false) → findIdxAux p l = none := by
  intro l
  induction l with
  | nil => intro _; rfl
  | cons a tl ih =>
      intro h
      have ha : p a = false := h a (by simp)
      have htl : findIdxAux p tl = none := ih (fun m hm => h m (by simp [hm]))
      simp [findIdxAux, ha, htl]

lemma user1_append (l l2 : List Message)
    (hu : ∃ m, l.get? 1 = some m ∧ m.isUser = true) :
    ∃ m, (l ++ l2).get? 1 = some m ∧ m.isUser = true := by
  obtain ⟨m, hm, hmu⟩ := hu
  have hlt : 1 < l.length := lt_length_of_get?_some l 1 m hm
  refine ⟨m, ?_, hmu⟩
  rw [List.get?_eq_getElem?] at hm ⊢
  rw [List.getElem?_append_left hlt]
  exact hm

lemma user1_trimConv (st : MTState)
    (hu : ∃ m, st.conv.get? 1 = some m ∧ m.isUser = true) :
    ∃ m, (trimConv st).conv.get? 1 = some m ∧ m.isUser = true := by
  obtain ⟨m, hm, hmu⟩ := hu
  unfold trimConv
  split
  · next hlen =>
      refine ⟨m, ?_, hmu⟩
      have h2 : (st.conv.take 2).length = 2 := by
        rw [List.length_take]; omega
      rw [List.get?_eq_getElem?] at hm ⊢
      dsimp only
      rw [List.getElem?_append_left (by rw [h2]; omega)]
      rw [List.getElem?_take]
      simpa using hm
  · exact ⟨m, hm, hmu⟩

lemma mtStep_preserves_user1 (env : MTEnv) (choice : MTChoice) (st st2 : MTState)
    (h : mtStep env choice st = .cont st2)
    (hu : ∃ m, st.conv.get? 1 = some m ∧ m.isUser = true) :
    ∃ m, st2.conv.get? 1 = some m ∧ m.isUser = true := by
  unfold mtStep at h
  dsimp only at h
  repeat' split at h
  all_goals cases h
  all_goals first
    | exact user1_append _ _ hu
    | exact user1_append _ _ (user1_append _ _ hu)
    | exact user1_trimConv _ (user1_append _ _ (user1_append _ _ hu))

/-- **C9**: On each turn of the multi-turn loop (and for single-shot LLM
steps) the message list sent to the model is the persisted conversation
with one synthetic browser-state user message inserted immediately before
the last user-role message, or appended when no user message exists, and
the persisted conversation is not mutated.  Formally: whenever the
conversation keeps a user message at index 1 (true of the initial
`[system, user]` conversation of both the loop and the single-shot paths,
and preserved by every continuing loop step — the third conjunct), the
last user index k is at least 1, both source variants
(`insertBrowserState` of executor.js and `insertBrowserStateMessage` of
orchestrator/executor.js) produce exactly `conv.insertIdx k (browserMsg bs)`,
k carries a user message with no user message after it, and erasing index
k recovers the conversation unchanged; when no user message exists, both
variants append. -/
theorem insertBrowserState_placement (bs : String) (conv : List Message)
    (hu : ∃ m, conv.get? 1 = some m ∧ m.isUser = true) :
    (∃ k, findLastUserIdx conv = some k ∧ 1 ≤ k ∧
      (∃ m, conv.get? k = some m ∧ m.isUser = true) ∧
      (∀ j m, k < j → conv.get? j = some m → m.isUser = false) ∧
      insertBrowserState bs conv = conv.insertIdx k (browserMsg bs) ∧
      insertBrowserStateMessage bs conv = conv.insertIdx k (browserMsg bs) ∧
      (conv.insertIdx k (browserMsg bs)).eraseIdx k = conv) ∧
    (∀ conv2 : List Message, (∀ m ∈ conv2, m.isUser = false) →
      insertBrowserState bs conv2 = conv2 ++ [browserMsg bs] ∧
      insertBrowserStateMessage bs conv2 = conv2 ++ [browserMsg bs]) ∧
    (∀ env choice st st2, mtStep env choice st = StepOut.cont st2 →
      (∃ m, st.conv.get? 1 = some m ∧ m.isUser = true) →
      (∃ m, st2.conv.get? 1 = some m ∧ m.isUser = true)) := by
  obtain ⟨m, hm, hmu⟩ := hu
  have hlen : 1 < conv.length := lt_length_of_get?_some conv 1 m hm
  have hrev : conv.reverse.get? (conv.length - 2) = some m := by
    rw [get?_reverse_eq conv (conv.length - 2) (by omega)]
    have he : conv.length - 1 - (conv.length - 2) = 1 := by omega
    rw [he]; exact hm
  obtain ⟨i, hi, hile⟩ :=
    findIdxAux_some_le Message.isUser conv.reverse (conv.length - 2) m hrev hmu
  refine ⟨⟨conv.length - 1 - i, ?_, by omega, ?_, ?_, ?_, ?_, ?_⟩, ?_, ?_⟩
  · simp [findLastUserIdx, hi]
  · obtain ⟨m2, hm2, hm2u⟩ := findIdxAux_some_spec Message.isUser conv.reverse i hi
    have hilt : i < conv.reverse.length := lt_length_of_get?_some _ _ _ hm2
    rw [List.length_reverse] at hilt
    rw [get?_reverse_eq conv i hilt] at hm2
    exact ⟨m2, hm2, hm2u⟩
  · intro j mj hkj hj
    by_contra hju
    rw [Bool.not_eq_false] at hju
    have hjlt : j < conv.length := lt_length_of_get?_some conv j mj hj
    have hrevj : conv.reverse.get? (conv.length - 1 - j) = some mj := by
      rw [get?_reverse_eq conv (conv.length - 1 - j) (by omega)]
      have he : conv.length - 1 - (conv.length - 1 - j) = j := by omega
      rw [he]; exact hj
    obtain ⟨i2, hi2, hi2le⟩ :=
      findIdxAux_some_le Message.isUser conv.reverse (conv.length - 1 - j) mj hrevj hju
    rw [hi] at hi2
    injection hi2 with hi2
    omega
  · have h0 : 0 < conv.length - 1 - i := by omega
    simp [insertBrowserState, findLastUserIdx, hi, h0]
  · have h0 : 0 < conv.length - 1 - i := by omega
    simp [insertBrowserStateMessage, hi, h0]
  · exact List.eraseIdx_insertIdx _ _
  · intro conv2 hall
    have hnone : findIdxAux Message.isUser conv2.reverse = none :=
      findIdxAux_eq_none _ _ (fun m2 hm2 => hall m2 (List.mem_reverse.mp hm2))
    constructor
    · simp [insertBrowserState, findLastUserIdx, hnone]
    · simp [insertBrowserStateMessage, hnone]
  · intro env choice st st2 hstep hu2
    exact mtStep_preserves_user1 env choice st st2 hstep hu2

/-- Witness for C9: on the loop's initial conversation the browser-state
message lands at index 1, immediately before the user message. -/
theorem insertBrowserState_placement_witness :
    insertBrowserState "B" [Message.system "sys", Message.user "go"] =
      ([Message.system "sys", Message.user "go"] : List Message).insertIdx 1
        (browserMsg "B") := by
  obtain ⟨⟨k, hfind, -, -, -, hins, -, -⟩, -, -⟩ :=
    insertBrowserState_placement "B" [Message.system "sys", Message.user "go"]
      ⟨Message.user "go", rfl, rfl⟩
  have h : findLastUserIdx [Message.system "sys", Message.user "go"] = some 1 := rfl
  rw [h] at hfind
  injection hfind with h1
  rw [hins, ← h1]
